import Mathlib

/-!
Verification of the drizzle-solid query layer (a relational-style query
engine over Solid Pods) against its natural-language specification.

The definitions below are a shallow embedding of the TypeScript sources:
  * `src/core/query-conditions.ts` — the condition algebra,
  * `src/core/aggregates.ts`       — aggregate descriptors,
  * `src/core/rdf-schema-parser.ts`— columns / tables / predicate resolution,
  * `src/core/ast-to-sparql.ts`    — the SPARQL translator,
  * `src/core/pod-session.ts`      — the query builders, the fallback planner
                                     and the Pod dialect / executor.

JavaScript runtime values are modelled by `JsVal` (numbers as rationals with
an explicit NaN constructor, a distinguished `undefined`), JS objects/rows by
association lists, remote engine and HTTP responses by explicit oracle
parameters, and fallible code by `Except String`.
-/

deriving instance DecidableEq for Except

namespace DrizzleSolid

/-! ## JavaScript value model -/

/-- A primitive JavaScript runtime value: `undefined`, `null`, finite
numbers (as rationals), `NaN`, strings and booleans. -/
inductive JsPrim where
  | undefined : JsPrim
  | null : JsPrim
  | num (q : ℚ) : JsPrim
  | nan : JsPrim
  | str (s : String) : JsPrim
  | bool (b : Bool) : JsPrim
deriving DecidableEq

/-- A JavaScript value as the query layer manipulates them: a primitive, or
an array of primitives (arrays appear as `IN`-lists and batch values; the
sources never nest them). -/
inductive JsVal where
  | p (v : JsPrim) : JsVal
  | arr (vs : List JsPrim) : JsVal
deriving DecidableEq

/-- `undefined` as a `JsVal`. -/
def JsVal.undefined : JsVal := .p .undefined
/-- `null` as a `JsVal`. -/
def JsVal.null : JsVal := .p .null
/-- A finite number as a `JsVal`. -/
def JsVal.num (q : ℚ) : JsVal := .p (.num q)
/-- `NaN` as a `JsVal`. -/
def JsVal.nan : JsVal := .p .nan
/-- A string as a `JsVal`. -/
def JsVal.str (s : String) : JsVal := .p (.str s)
/-- A boolean as a `JsVal`. -/
def JsVal.bool (b : Bool) : JsVal := .p (.bool b)

/-- Decimal rendering of an integer-valued JS number (`String(5) = "5"`).
Non-integer rationals are rendered as `num/den`, an approximation of the
JS float formatting that is exact on the integer values used here. -/
def jsNumToString (q : ℚ) : String :=
  if q.den = 1 then toString q.num else toString q.num ++ "/" ++ toString q.den

/-- Escape for JSON string bodies: `"` and `\` get a backslash. -/
def jsonEscape (s : String) : String :=
  String.mk (s.toList.flatMap (fun c => if c = '"' ∨ c = '\\' then ['\\', c] else [c]))

/-- Model of `JSON.stringify` on primitives (`undefined` inside an array
serialises as `null`, `NaN` as `null`). -/
def jsonStringifyPrim : JsPrim → String
  | .undefined => "null"
  | .null => "null"
  | .num q => jsNumToString q
  | .nan => "null"
  | .str s => "\"" ++ jsonEscape s ++ "\""
  | .bool b => if b then "true" else "false"

/-- Model of `JSON.stringify` on the modelled values. -/
def jsonStringify : JsVal → String
  | .p v => jsonStringifyPrim v
  | .arr vs => "[" ++ String.intercalate "," (vs.map jsonStringifyPrim) ++ "]"

/-- `String(...)` on primitives. -/
def jsPrimToString : JsPrim → String
  | .null => "null"
  | .undefined => "undefined"
  | .nan => "NaN"
  | .num q => jsNumToString q
  | .str s => s
  | .bool b => if b then "true" else "false"

/-- `serializeValueForKey` (pod-session.ts): `null` serialises to `"null"`,
objects through `JSON.stringify`, everything else through `String(...)`. -/
def serializeValueForKey : JsVal → String
  | .p .null => "null"
  | .arr vs => jsonStringify (.arr vs)
  | .p v => jsPrimToString v

/-- JS strict equality `===` on the modelled values. `NaN === NaN` is false;
arrays are compared by reference in JS, so two array literals are unequal. -/
def jsStrictEq : JsVal → JsVal → Bool
  | .p .undefined, .p .undefined => true
  | .p .null, .p .null => true
  | .p (.num a), .p (.num b) => a = b
  | .p (.str a), .p (.str b) => a = b
  | .p (.bool a), .p (.bool b) => a = b
  | _, _ => false

/-- `Array.prototype.includes` uses SameValueZero: like `===` but
`NaN` equals `NaN`. -/
def jsSameValueZero (a b : JsVal) : Bool :=
  match a, b with
  | .p .nan, .p .nan => true
  | x, y => jsStrictEq x y

/-! Kernel-friendly string helpers: the embedding uses these list-based
implementations of the platform string operations (`trim`, `contains`,
`split`, `startsWith`, `endsWith`, `toUpperCase`) so that every definition
evaluates by reduction. -/

/-- Is one character list a prefix of another? -/
def listIsPrefix : List Char → List Char → Bool
  | [], _ => true
  | _ :: _, [] => false
  | a :: as, b :: bs => a = b && listIsPrefix as bs

/-- `s.startsWith(t)`. -/
def strStartsWith (s t : String) : Bool :=
  listIsPrefix t.toList s.toList

/-- One character of JS whitespace (the common cases). -/
def isJsWhitespace (c : Char) : Bool :=
  c = ' ' ∨ c = '\t' ∨ c = '\n' ∨ c = '\r'

/-- `s.trim()`. -/
def jsTrim (s : String) : String :=
  String.mk (((s.toList.dropWhile isJsWhitespace).reverse.dropWhile isJsWhitespace).reverse)

/-- Does the string contain the character? -/
def strContainsChar (s : String) (c : Char) : Bool :=
  s.toList.any (fun x => x = c)

/-- The first two segments of `s.split(".", 2)`. -/
def splitFirstAtDot (l : List Char) : List Char × List Char :=
  (l.takeWhile (fun c => c ≠ '.'),
   ((l.dropWhile (fun c => c ≠ '.')).drop 1).takeWhile (fun c => c ≠ '.'))

/-- `s.toUpperCase()` (ASCII, as the operator strings here are ASCII). -/
def strToUpper (s : String) : String :=
  String.mk (s.toList.map Char.toUpper)

/-- Digits of a decimal integer literal to a rational. -/
def digitsToQ (l : List Char) : ℚ :=
  l.foldl (fun a c => a * 10 + ((c.toNat - 48 : ℕ) : ℚ)) 0

/-- Unsigned decimal literal, optionally with a fractional part. -/
def parseUnsignedDecimal (l : List Char) : Option ℚ :=
  let intPart := l.takeWhile (·.isDigit)
  let rest := l.dropWhile (·.isDigit)
  match rest with
  | [] => if intPart.isEmpty then none else some (digitsToQ intPart)
  | '.' :: frac =>
    if frac.all (·.isDigit) ∧ (intPart ≠ [] ∨ frac ≠ []) then
      some (digitsToQ intPart + digitsToQ frac / (10 ^ frac.length : ℚ))
    else none
  | _ => none

/-- Model of `Number(string)` for ordinary decimal literals: the empty or
blank string coerces to `0`, an optionally signed decimal to its value, and
anything else to NaN (`none`). -/
def jsStringToNumber (s : String) : Option ℚ :=
  let t := jsTrim s
  if t = "" then some 0
  else match t.toList with
    | '-' :: rest => (parseUnsignedDecimal rest).map (fun q => -q)
    | '+' :: rest => parseUnsignedDecimal rest
    | l => parseUnsignedDecimal l

/-- `Number(...)` on primitives; `none` stands for NaN. -/
def jsNumberPrim : JsPrim → Option ℚ
  | .num q => some q
  | .nan => none
  | .null => some 0
  | .undefined => none
  | .bool b => some (if b then 1 else 0)
  | .str s => jsStringToNumber s

/-- Model of the JS `Number(...)` coercion; `none` stands for NaN.
Array coercion goes through string conversion (`[] → "" → 0`,
`[v] → String(v) → number`). -/
def jsNumber : JsVal → Option ℚ
  | .p v => jsNumberPrim v
  | .arr [] => some 0
  | .arr [v] => jsStringToNumber (jsPrimToString v)
  | .arr (_ :: _ :: _) => none

/-! ## Rows

A row is a JS object: an association list from string keys to values with
no duplicate keys.  A key that is absent is distinct from a key that is
present with the value `undefined` (the source tests presence with `in`). -/

/-- A row of results: a JS object, keys in insertion order. -/
abbrev Row := List (String × JsVal)

/-- `key in row` — presence of a key. -/
def rowHas (row : Row) (k : String) : Bool :=
  row.any (fun kv => kv.1 = k)

/-- `row[key]` — `undefined` when the key is absent. -/
def rowGet (row : Row) (k : String) : JsVal :=
  match row.find? (fun kv => kv.1 = k) with
  | some kv => kv.2
  | none => .undefined

/-- JS object spread `\x7b...a, ...b\x7d`: the keys of `a` in order (values
overridden by `b` where present), then the keys of `b` not in `a`. -/
def rowMerge (a b : Row) : Row :=
  (a.map (fun kv => if rowHas b kv.1 then (kv.1, rowGet b kv.1) else kv))
    ++ b.filter (fun kv => ¬ rowHas a kv.1)

/-! ## Condition algebra (`query-conditions.ts`)

`QueryCondition` is a tagged record with
`type ∈ \x7bbinary_expr, unary_expr, logical_expr\x7d`; the three tags carry
disjoint payloads and are modelled as constructors.  `column`/`value`/`table`
are the optional fields of the source interface.  -/

/-- A condition-tree node (`QueryCondition` in query-conditions.ts). -/
inductive QueryCondition where
  | binary (operator : String) (column : Option String) (value : JsVal)
      (table : Option String) : QueryCondition
  | unary (operator : String) (column : Option String)
      (left : Option QueryCondition) (table : Option String) : QueryCondition
  | logical (operator : String) (conditions : List QueryCondition) : QueryCondition

namespace Conditions

/-- `resolveColumnAndTable`: a dotted `"table.column"` string splits into the
table qualifier and the column (`split('.', 2)` keeps the first two parts). -/
def resolveColumnAndTable (column : String) : String × Option String :=
  if strContainsChar column '.' then
    let (t, c) := splitFirstAtDot column.toList
    (String.mk c, some (String.mk t))
  else (column, none)

/-- `createBinaryCondition` for the comparison constructors. -/
def createBinaryCondition (column : String) (operator : String) (value : JsVal) :
    QueryCondition :=
  let (columnName, tableName) := resolveColumnAndTable column
  .binary operator (some columnName) value tableName

/-- `eq(column, value)`. -/
def eqCond (column : String) (value : JsVal) : QueryCondition :=
  createBinaryCondition column "=" value

/-- `ne(column, value)`. -/
def neCond (column : String) (value : JsVal) : QueryCondition :=
  createBinaryCondition column "!=" value

/-- `gt(column, value)`. -/
def gtCond (column : String) (value : JsVal) : QueryCondition :=
  createBinaryCondition column ">" value

/-- `gte(column, value)`. -/
def gteCond (column : String) (value : JsVal) : QueryCondition :=
  createBinaryCondition column ">=" value

/-- `lt(column, value)`. -/
def ltCond (column : String) (value : JsVal) : QueryCondition :=
  createBinaryCondition column "<" value

/-- `lte(column, value)`. -/
def lteCond (column : String) (value : JsVal) : QueryCondition :=
  createBinaryCondition column "<=" value

/-- `like(column, pattern)`. -/
def likeCond (column : String) (pattern : String) : QueryCondition :=
  createBinaryCondition column "LIKE" (.str pattern)

/-- `inArray(column, values)`. -/
def inArrayCond (column : String) (values : List JsPrim) : QueryCondition :=
  let (columnName, tableName) := resolveColumnAndTable column
  .binary "IN" (some columnName) (.arr values) tableName

/-- `notInArray(column, values)`. -/
def notInArrayCond (column : String) (values : List JsPrim) : QueryCondition :=
  let (columnName, tableName) := resolveColumnAndTable column
  .binary "NOT IN" (some columnName) (.arr values) tableName

/-- `isNull(column)`. -/
def isNullCond (column : String) : QueryCondition :=
  let (columnName, tableName) := resolveColumnAndTable column
  .unary "IS NULL" (some columnName) none tableName

/-- `isNotNull(column)`. -/
def isNotNullCond (column : String) : QueryCondition :=
  let (columnName, tableName) := resolveColumnAndTable column
  .unary "IS NOT NULL" (some columnName) none tableName

/-- `and(...conditions)`. -/
def andCond (conditions : List QueryCondition) : QueryCondition :=
  .logical "AND" conditions

/-- `or(...conditions)`. -/
def orCond (conditions : List QueryCondition) : QueryCondition :=
  .logical "OR" conditions

/-- `not(condition)`. -/
def notCond (condition : QueryCondition) : QueryCondition :=
  .unary "NOT" none (some condition) none

end Conditions

/-! ## Update / delete builder routing (`pod-session.ts`)

`UpdateQueryBuilder` and `DeleteQueryBuilder` each define an identical
`convertQueryConditionToSimple`: a condition tree given to `.where(...)` is
converted to a simple key/value map whenever it is a `binary_expr` carrying a
truthy `column` and a value that is not `undefined` — the operator is not
inspected.  All other trees convert to the empty map, and only then does
`execute()` route to the complex (select-then-per-subject) executor. -/

/-- `convertQueryConditionToSimple` of `UpdateQueryBuilder` /
`DeleteQueryBuilder`: `\x7b[condition.column]: condition.value\x7d` when the
node is a binary expression with a truthy column and a defined value
(the empty string is falsy in JS), otherwise the empty map. -/
def convertQueryConditionToSimple (condition : QueryCondition) : List (String × JsVal) :=
  match condition with
  | .binary _ (some col) v _ =>
    if col ≠ "" ∧ v ≠ .undefined then [(col, v)] else []
  | _ => []

/-- Which execution path an `update(...).where(tree)` / `delete().where(tree)`
takes. -/
inductive WriteRoute where
  | complexPath : WriteRoute
  | nativeTemplate : WriteRoute
deriving DecidableEq

/-- Routing of a condition-tree `where` by the update/delete builders:
`where()` stores the simple conversion when it is non-empty, and `execute()`
calls the complex executor exactly when the stored simple map is absent or
empty; otherwise the operation goes to the dialect's native template. -/
def builderConditionRoute (condition : QueryCondition) : WriteRoute :=
  if (convertQueryConditionToSimple condition).isEmpty then .complexPath
  else .nativeTemplate

/-! ## Alias environment and column references (`SelectQueryBuilder`) -/

/-- A resolved column reference: the table alias and the column name
(the table object itself is identified by its alias here). -/
structure ColumnReference where
  tblAlias : String
  column : String
deriving DecidableEq

/-- The alias bookkeeping of a `SelectQueryBuilder`: the primary alias set by
`.from(...)` and the aliases registered in `aliasToTable`. -/
structure AliasEnv where
  primaryAlias : String
  knownAliases : List String
deriving DecidableEq

/-- `parseColumnReferenceString`: trim, then split a dotted reference at the
first dot (`split('.', 2)`). -/
def parseColumnReferenceString (reference : String) : Option String × String :=
  let trimmed := jsTrim reference
  if ¬ strContainsChar trimmed '.' then (none, trimmed)
  else
    let (a, c) := splitFirstAtDot trimmed.toList
    (some (String.mk a), String.mk c)

/-- `resolveColumnReference` for string references: the parsed alias, else
the primary alias; the alias must be registered in `aliasToTable`. -/
def resolveColumnReferenceStr (env : AliasEnv) (field : String) :
    Except String ColumnReference :=
  let (parsedAlias, column) := parseColumnReferenceString field
  let a := parsedAlias.getD env.primaryAlias
  if env.knownAliases.contains a then .ok ⟨a, column⟩
  else .error ("Unknown table alias \"" ++ a ++ "\" in column reference \"" ++ field ++ "\"")

/-- `getColumnKeyCandidates`: the bare column name when the reference is on
the primary alias, then always the `alias.column` qualified key. -/
def getColumnKeyCandidates (primaryAlias : String) (c : ColumnReference) : List String :=
  (if c.tblAlias = primaryAlias then [c.column] else []) ++ [c.tblAlias ++ "." ++ c.column]

/-- `getRowValueForColumn`: the first candidate key present in the row
(`key in row`), else `undefined`. -/
def getRowValueForColumn (primaryAlias : String) (row : Row) (c : ColumnReference) : JsVal :=
  match (getColumnKeyCandidates primaryAlias c).find? (rowHas row) with
  | some k => rowGet row k
  | none => .undefined

/-! ## Join registration (`SelectQueryBuilder.addJoin` / `resolveJoinConditions`) -/

/-- The four join kinds of the fluent API. -/
inductive JoinType where
  | leftJoin | rightJoin | innerJoin | fullJoin
deriving DecidableEq

/-- A resolved join condition entry (`left = right`). -/
structure ResolvedJoinCondition where
  left : ColumnReference
  right : ColumnReference
deriving DecidableEq

/-- The per-entry resolution of `resolveJoinConditions` (`entries.map` with
the first throwing callback aborting the whole call): each entry's sides are
resolved and at least one must be the joined alias. -/
def resolveJoinConditionEntries (env : AliasEnv) (joinAlias : String) :
    List (String × String) → Except String (List ResolvedJoinCondition)
  | [] => .ok []
  | entry :: rest => do
    let leftRef ← resolveColumnReferenceStr env entry.1
    let rightRef ← resolveColumnReferenceStr env entry.2
    if leftRef.tblAlias ≠ joinAlias ∧ rightRef.tblAlias ≠ joinAlias then
      .error "JOIN condition must reference the joined table in at least one side"
    else do
      let restResolved ← resolveJoinConditionEntries env joinAlias rest
      pure (⟨leftRef, rightRef⟩ :: restResolved)

/-- `resolveJoinConditions`: an empty condition object is a programmer error,
and each entry must reference the joined alias on at least one side. -/
def resolveJoinConditions (env : AliasEnv) (condition : List (String × String))
    (joinAlias : String) : Except String (List ResolvedJoinCondition) :=
  if condition.isEmpty then .error "JOIN condition cannot be empty"
  else resolveJoinConditionEntries env joinAlias condition

/-- `addJoin`: `rightJoin` and `fullJoin` are rejected before any condition
is resolved. -/
def addJoinCheck (t : JoinType) : Except String Unit :=
  if t = .rightJoin ∨ t = .fullJoin then
    .error "join type is not yet supported in Solid dialect"
  else .ok ()

/-! ## Predicate resolution (`ast-to-sparql.ts` / `rdf-schema-parser.ts`) -/

/-- A table namespace (`NamespaceConfig`); only the URI takes part in
predicate resolution. -/
structure NamespaceConfig where
  uri : String
deriving DecidableEq

/-- The schema column model: `PodColumnBase` carries its field name and its
options (`options.predicate` is the explicit predicate URI,
`options.required` drives OPTIONAL emission). -/
structure PodColumn where
  name : String
  optionsPredicate : Option String
  required : Bool
deriving DecidableEq

/-- `COMMON_NAMESPACES.schema.uri`. -/
def schemaNamespaceUri : String := "https://schema.org/"

/-- `PodColumnBase.getPredicate` (rdf-schema-parser.ts): the explicit
`options.predicate`, else the table namespace URI concatenated with the
column name, else `https://schema.org/` concatenated with the column name. -/
def PodColumn.getPredicate (col : PodColumn) (tableNamespace : Option NamespaceConfig) :
    String :=
  match col.optionsPredicate with
  | some p => p
  | none =>
    match tableNamespace with
    | some ns => ns.uri ++ col.name
    | none => schemaNamespaceUri ++ col.name

/-- `ASTToSPARQLConverter.getPredicateForColumn` for the schema's columns.
Table columns are `PodColumnBase` instances: their `predicate` member is a
method (not a string), so the first source branch never fires, and they
always provide `getPredicate`, so resolution hands off to
`column.getPredicate(table.config.namespace)` right after the explicit
`options.predicate` check; the namespace-concatenation, built-in default
table and `http://example.org/` branches further down the source are
unreachable for such columns. -/
def getPredicateForColumn (col : PodColumn) (tableNamespace : Option NamespaceConfig) :
    String :=
  match col.optionsPredicate with
  | some p => p
  | none => col.getPredicate tableNamespace

/-- The built-in default predicate table exactly as the specification lists
it (the claim's reading of resolution order sends namespace-less columns
here). -/
def specBuiltinDefaultPredicate (name : String) : Option String :=
  if name = "name" then some "http://xmlns.com/foaf/0.1/name"
  else if name = "title" then some "http://purl.org/dc/terms/title"
  else if name = "description" then some "http://purl.org/dc/terms/description"
  else if name = "content" then some "http://purl.org/dc/terms/description"
  else if name = "createdAt" then some "https://schema.org/dateCreated"
  else if name = "updatedAt" then some "https://schema.org/dateModified"
  else if name = "email" then some "http://xmlns.com/foaf/0.1/mbox"
  else if name = "url" then some "http://xmlns.com/foaf/0.1/homepage"
  else if name = "homepage" then some "http://xmlns.com/foaf/0.1/homepage"
  else none

/-- Predicate resolution as the claim states it: explicit predicate, else
namespace URI ++ name, else the built-in default table, else
`http://example.org/<name>`. -/
def specClaimedPredicateResolution (col : PodColumn)
    (tableNamespace : Option NamespaceConfig) : String :=
  match col.optionsPredicate with
  | some p => p
  | none =>
    match tableNamespace with
    | some ns => ns.uri ++ col.name
    | none =>
      match specBuiltinDefaultPredicate col.name with
      | some p => p
      | none => "http://example.org/" ++ col.name

/-! ## Subject URIs (`ast-to-sparql.ts` / `SelectQueryBuilder`) -/

/-- Drop one trailing slash (`replace(/\/$/, '')`). -/
def stripOneTrailingSlash (s : String) : String :=
  if s.toList.getLast? = some '/' then String.mk s.toList.dropLast else s

/-- Drop one leading slash (`replace(/^\//, '')`). -/
def stripOneLeadingSlash (s : String) : String :=
  match s.toList with
  | '/' :: rest => String.mk rest
  | _ => s

/-- `ASTToSPARQLConverter.generateSubjectUri`: the converter's pod URL and
the user path extracted from the webId, the table's container path with its
trailing slash removed (defaulting to `/data/` when empty), prefixed with the
user path unless already so prefixed, then `#` and the record id.  A record
whose `id` is absent or falsy falls back to `Date.now()`, supplied here as
the `nowMs` parameter. -/
def generateSubjectUri (podUrl userPath : String) (containerPath : String)
    (recordId : Option String) (nowMs : ℕ) : String :=
  let containerPath' := if containerPath = "" then "/data/" else containerPath
  let cleanContainerPath := stripOneTrailingSlash containerPath'
  let fullContainerPath :=
    if strStartsWith cleanContainerPath userPath then cleanContainerPath
    else userPath ++ stripOneLeadingSlash cleanContainerPath
  let id :=
    match recordId with
    | some s => if s = "" then toString nowMs else s
    | none => toString nowMs
  podUrl ++ fullContainerPath ++ "#" ++ id

/-- The longest suffix of `s` containing neither `/` nor `#` — the match of
the regular expression `[^/#]+$` (empty means no match). -/
def lastUriSegment (s : String) : String :=
  String.mk ((s.toList.reverse.takeWhile (fun c => c ≠ '/' ∧ c ≠ '#')).reverse)

/-- `SelectQueryBuilder.extractIdFromSubject`: `undefined` for a falsy
subject; the match of `[^/#]+$` when there is one; the whole subject when
the regular expression does not match. -/
def extractIdFromSubject (subject : String) : Option String :=
  if subject = "" then none
  else
    let m := lastUriSegment subject
    some (if m = "" then subject else m)

/-! ## Dialect dispatch (`PodDialect.query` and the complex executors)

HTTP and SPARQL-engine interactions are modelled by explicit parameters:
`hasResource` is the preflight's answer (`resourceExists`), `proceedRows` /
`subjects` are what the engine returns further down a branch.  Each function
mirrors the order of the source branch, so an `.error` produced before a
parameter is consulted corresponds to a throw before that traffic happens. -/

/-- The result row `\x7bsuccess: true, source, status: 404\x7d` the delete
branch returns for a missing resource. -/
def deleteMissingResourceRow (resourceUrl : String) : Row :=
  [("success", .bool true), ("source", .str resourceUrl), ("status", .num 404)]

/-- The `delete` case of `PodDialect.query` (taken for simple key/value
`where` maps and for trees that converted to one): after the container
preflight, a missing resource short-circuits to the 404 success row; an
existing one proceeds to `convertDelete` and the engine (`proceedRows`). -/
def dialectDeleteViaQuery (resourceUrl : String) (hasResource : Bool)
    (proceedRows : List Row) : List Row :=
  if ¬ hasResource then [deleteMissingResourceRow resourceUrl]
  else proceedRows

/-- A `\x7bsuccess: true, source, subject\x7d` result row of the complex
executors. -/
def complexResultRow (resourceUrl subject : String) : Row :=
  [("success", .bool true), ("source", .str resourceUrl), ("subject", .str subject)]

/-- `PodDialect.executeComplexDelete`: `ensureResourceExists` with
`createIfMissing: false` throws `Resource not found` when the resource is
missing; otherwise the subjects found by the discovery SELECT each get a
per-subject `DELETE WHERE` and a success row. -/
def executeComplexDelete (resourceUrl : String) (hasResource : Bool)
    (subjects : List String) : Except String (List Row) :=
  if ¬ hasResource then .error ("Resource not found: " ++ resourceUrl)
  else .ok (subjects.map (complexResultRow resourceUrl))

/-- `PodDialect.executeComplexUpdate`: no valid set-columns returns empty
before any traffic; then the preflight (`createIfMissing: false`) throws on a
missing resource; then each subject of the discovery SELECT gets one
per-subject update statement and a success row (`buildUpdateQueryForSubject`
is non-null whenever `columnsToUpdate` is non-empty, since every listed
column contributes a DELETE statement). -/
def executeComplexUpdate (resourceUrl : String) (columnsToUpdate : List String)
    (hasResource : Bool) (subjects : List String) : Except String (List Row) :=
  if columnsToUpdate.isEmpty then .ok []
  else if ¬ hasResource then .error ("Resource not found: " ++ resourceUrl)
  else .ok (subjects.map (complexResultRow resourceUrl))

/-- What the claim expects of a delete on a missing resource:
`[\x7bsuccess: true, source, status: 404\x7d]`. -/
def specClaimedDeleteMissingResult (resourceUrl : String) : List Row :=
  [deleteMissingResourceRow resourceUrl]

/-! ## Insert dispatch (`PodDialect.query`, insert case) -/

/-- The `values` argument of an insert operation: one record or a batch. -/
inductive InsertInput where
  | single (record : Row) : InsertInput
  | batch (records : List Row) : InsertInput

/-- `Array.isArray(operation.values) ? operation.values : [operation.values]`. -/
def normalizeInsertValues : InsertInput → List Row
  | .single r => [r]
  | .batch rs => rs

/-- The externally visible phases of the insert branch, each of which
performs HTTP traffic. -/
inductive InsertEffect where
  | ensureContainer (containerUrl : String) : InsertEffect
  | ensureResource (resourceUrl : String) : InsertEffect
  | duplicateCheck (resourceUrl : String) : InsertEffect
  | sparqlInsert (resourceUrl : String) : InsertEffect
deriving DecidableEq

/-- The `insert` case of `PodDialect.query`: the empty-batch check throws
before any of the HTTP phases run; a non-empty batch runs container and
resource preflight, the duplicate GET-scan, and the SPARQL INSERT, returning
the engine's rows (`engineRows`). -/
def dialectInsertBranch (input : InsertInput) (containerUrl resourceUrl : String)
    (engineRows : List Row) : List InsertEffect × Except String (List Row) :=
  let values := normalizeInsertValues input
  if values.length = 0 then
    ([], .error "INSERT operation requires at least one value")
  else
    ([.ensureContainer containerUrl, .ensureResource resourceUrl,
      .duplicateCheck resourceUrl, .sparqlInsert resourceUrl],
     .ok engineRows)

/-! ## LIKE patterns (`convertLikePattern` / `computeLikeMatch`)

Both the SPARQL translator (ast-to-sparql.ts) and the in-memory evaluator
(pod-session.ts) turn a LIKE pattern into a regular expression by escaping
the character class `[.+^$\x7b\x7d()|[\]\\]`, replacing every `%` with `.*`
and every `_` with `.`, anchoring with `^...$` and matching
case-insensitively.  The JS `RegExp` engine is the platform; it is modelled
by `parseRegexBody`/`ratomsMatch` on the fragment of regexes this pipeline
can produce (sequences of possibly-quantified literals and dots). -/

/-- The character class both source sites escape:
`[.+^$\x7b\x7d()|[\]\\]` — note that `*` and `?` are not in it. -/
def likeEscapeChars : List Char :=
  ['.', '+', '^', '$', '\x7b', '\x7d', '(', ')', '|', '[', ']', '\\']

/-- `pattern.replace(/[.+^$\x7b\x7d()|[\]\\]/g, "\\$&")` — each character of
the class gets a backslash. -/
def escapeRegexChars (s : List Char) : List Char :=
  s.flatMap (fun c => if likeEscapeChars.contains c then ['\\', c] else [c])

/-- `.replace(/%/g, ".*").replace(/_/g, ".")`, in that order. -/
def expandLikeWildcards (s : List Char) : List Char :=
  (s.flatMap (fun c => if c = '%' then ['.', '*'] else [c])).map
    (fun c => if c = '_' then '.' else c)

/-- `ASTToSPARQLConverter.convertLikePattern`: the anchored regex string and
the `i` flag. -/
def convertLikePattern (pattern : String) : String × String :=
  let escaped := expandLikeWildcards (escapeRegexChars pattern.toList)
  (String.mk ('^' :: escaped ++ ['$']), "i")

/-- A regex token of the produced fragment: a literal character or `.`. -/
inductive RTok where
  | lit (c : Char) : RTok
  | dot : RTok
deriving DecidableEq

/-- A quantifier on a token: exactly one, `*`, or `?`. -/
inductive RQuant where
  | one | star | opt
deriving DecidableEq

/-- A quantified regex atom. -/
structure RAtom where
  tok : RTok
  quant : RQuant
deriving DecidableEq

/-- The ECMAScript pattern syntax characters (those that cannot stand alone
unescaped as literals in the produced fragment). -/
def regexSpecialChars : List Char :=
  ['*', '?', '+', '(', ')', '[', ']', '\x7b', '\x7d', '|', '^', '$', '\\', '.']

/-- Parse the body of a produced regex (between the `^`/`$` anchors) into a
sequence of quantified atoms.  `none` models a `SyntaxError` from the
`RegExp` constructor (for instance a quantifier with nothing to repeat);
lazy quantifiers (`*?`) are outside the modelled fragment and also map to
`none`, which no theorem below relies on. -/
def parseRegexBody : List Char → Option (List RAtom)
  | [] => some []
  | '\\' :: [] => none
  | '\\' :: c :: '*' :: rest => (parseRegexBody rest).map (fun as => ⟨.lit c, .star⟩ :: as)
  | '\\' :: c :: '?' :: rest => (parseRegexBody rest).map (fun as => ⟨.lit c, .opt⟩ :: as)
  | '\\' :: c :: rest => (parseRegexBody rest).map (fun as => ⟨.lit c, .one⟩ :: as)
  | '.' :: '*' :: rest => (parseRegexBody rest).map (fun as => ⟨.dot, .star⟩ :: as)
  | '.' :: '?' :: rest => (parseRegexBody rest).map (fun as => ⟨.dot, .opt⟩ :: as)
  | '.' :: rest => (parseRegexBody rest).map (fun as => ⟨.dot, .one⟩ :: as)
  | c :: '*' :: rest =>
    if regexSpecialChars.contains c then none
    else (parseRegexBody rest).map (fun as => ⟨.lit c, .star⟩ :: as)
  | c :: '?' :: rest =>
    if regexSpecialChars.contains c then none
    else (parseRegexBody rest).map (fun as => ⟨.lit c, .opt⟩ :: as)
  | c :: rest =>
    if regexSpecialChars.contains c then none
    else (parseRegexBody rest).map (fun as => ⟨.lit c, .one⟩ :: as)

/-- `.` in a JS regex without the `s` flag: any character except the four
line terminators. -/
def jsDotMatch (c : Char) : Bool :=
  ¬ (c = '\n' ∨ c = '\r' ∨ c = '\u2028' ∨ c = '\u2029')

/-- A token against a character under the `i` flag (case folding modelled by
`Char.toLower`, exact on ASCII). -/
def tokMatchCI (t : RTok) (c : Char) : Bool :=
  match t with
  | .lit l => l.toLower = c.toLower
  | .dot => jsDotMatch c

/-- Full match of an atom sequence against a character list. -/
def ratomsMatch : List RAtom → List Char → Bool
  | [], [] => true
  | [], _ :: _ => false
  | ⟨_, .one⟩ :: _, [] => false
  | ⟨t, .one⟩ :: as, c :: v => tokMatchCI t c && ratomsMatch as v
  | ⟨_, .opt⟩ :: as, [] => ratomsMatch as []
  | ⟨t, .opt⟩ :: as, c :: v => ratomsMatch as (c :: v) || (tokMatchCI t c && ratomsMatch as v)
  | ⟨_, .star⟩ :: as, [] => ratomsMatch as []
  | ⟨t, .star⟩ :: as, c :: v =>
    ratomsMatch as (c :: v) || (tokMatchCI t c && ratomsMatch (⟨t, .star⟩ :: as) v)
termination_by as v => (as.length, v.length)

/-- Strip the `^...$` anchors of a produced regex string. -/
def stripAnchors : List Char → Option (List Char)
  | '^' :: rest => if rest.getLast? = some '$' then some rest.dropLast else none
  | _ => none

/-- `new RegExp(regexStr, "i").test(value)` for fully anchored regexes of the
produced fragment. -/
def jsAnchoredRegexTestCI (regexStr : String) (value : String) : Option Bool := do
  let body ← stripAnchors regexStr.toList
  let atoms ← parseRegexBody body
  pure (ratomsMatch atoms value.toList)

/-- `SelectQueryBuilder.computeLikeMatch`: escape the class, expand the
wildcards, anchor, test case-insensitively.  `none` models the `RegExp`
constructor throwing. -/
def computeLikeMatch (value pattern : String) : Option Bool :=
  let escaped := escapeRegexChars pattern.toList
  let body := expandLikeWildcards escaped
  jsAnchoredRegexTestCI (String.mk ('^' :: body ++ ['$'])) value

/-- Escaping as the claim describes it: every regex metacharacter of the
pattern is escaped (in particular `*` and `?`). -/
def specEscapeAllMeta (s : List Char) : List Char :=
  s.flatMap (fun c => if regexSpecialChars.contains c then ['\\', c] else [c])

/-- LIKE evaluation as the claim states it: anchored case-insensitive regex
match with all metacharacters of the pattern escaped, `%` as `.*` and `_`
as `.`. -/
def specClaimedLikeMatch (value pattern : String) : Option Bool :=
  let body := expandLikeWildcards (specEscapeAllMeta pattern.toList)
  jsAnchoredRegexTestCI (String.mk ('^' :: body ++ ['$'])) value

/-- Reference SQL LIKE semantics, case-insensitive: `%` matches any
sequence, `_` any single character, other characters themselves up to
case. -/
def likeMatchesCI : List Char → List Char → Bool
  | [], [] => true
  | [], _ :: _ => false
  | '%' :: p, [] => likeMatchesCI p []
  | '%' :: p, c :: v => likeMatchesCI p (c :: v) || likeMatchesCI ('%' :: p) v
  | '_' :: _, [] => false
  | '_' :: p, _ :: v => likeMatchesCI p v
  | _ :: _, [] => false
  | c :: p, d :: v => (c.toLower = d.toLower) && likeMatchesCI p v
termination_by p v => (p.length, v.length)

/-- The atom sequence a star/question-free LIKE pattern compiles to:
`%` to an unbounded dot, `_` to a single dot, anything else to a literal. -/
def likeTokens : List Char → List RAtom
  | [] => []
  | '%' :: p => ⟨.dot, .star⟩ :: likeTokens p
  | '_' :: p => ⟨.dot, .one⟩ :: likeTokens p
  | c :: p => ⟨.lit c, .one⟩ :: likeTokens p

/-- The regex fragment a single LIKE-pattern character compiles to under the
source pipeline (escape, then wildcard expansion). -/
def encLike (c : Char) : List Char :=
  expandLikeWildcards (escapeRegexChars [c])

/-! ## Aggregates (`aggregates.ts` and the fallback reducers) -/

/-- The five aggregate functions. -/
inductive AggFunc where
  | count | sum | avg | min | max
deriving DecidableEq

/-- An `AggregateExpression` (kind `aggregate`): function, optional column
reference (the string form; a `PodColumnBase` resolves through the same
dotted-name path), `distinct` flag. -/
structure AggregateExpression where
  func : AggFunc
  column : Option String
  distinct : Bool
deriving DecidableEq

/-- `resolveAggregateColumnRef`: no column resolves to none, a column
reference resolves through `resolveColumnReference` (which throws on an
unknown alias). -/
def resolveAggregateColumnRef (env : AliasEnv) (agg : AggregateExpression) :
    Except String (Option ColumnReference) :=
  match agg.column with
  | none => .ok none
  | some s => (resolveColumnReferenceStr env s).map some

/-- `JSON.stringify` of a row object (used by `serializeValueForKey` when it
meets an object); keys with value `undefined` are omitted. -/
def jsonStringifyRow (row : Row) : String :=
  "\x7b" ++ String.intercalate ","
    ((row.filter (fun kv => kv.2 ≠ .undefined)).map
      (fun kv => "\"" ++ jsonEscape kv.1 ++ "\":" ++ jsonStringify kv.2)) ++ "\x7d"

/-- `countDistinctRows`: the number of distinct `JSON`-serialised rows. -/
def countDistinctRows (rows : List Row) : ℕ :=
  ((rows.map jsonStringifyRow).dedup).length

/-- `collectValuesForCount`: the column's values with `undefined` and `null`
dropped; under `distinct`, deduplicated by serialised key in first-seen
order. -/
def collectValuesForCount (primaryAlias : String) (ref : ColumnReference)
    (rows : List Row) (distinct : Bool) : List JsVal :=
  let values := (rows.map (fun row => getRowValueForColumn primaryAlias row ref)).filter
    (fun v => v ≠ .undefined ∧ v ≠ .null)
  if ¬ distinct then values
  else
    (values.foldl (fun (acc : List JsVal × List String) v =>
      let key := serializeValueForKey v
      if acc.2.contains key then acc else (acc.1 ++ [v], acc.2 ++ [key])) ([], [])).1

/-- The row loop of `collectNumericValues` (`seen` is the dedup key set):
skip `undefined`/`null`, coerce by `Number`, skip `NaN`; under `distinct`,
skip values whose serialised key was already seen. -/
def collectNumericValuesGo (primaryAlias : String) (ref : ColumnReference)
    (distinct : Bool) : List Row → List String → List ℚ
  | [], _ => []
  | row :: rest, seen =>
    let rawValue := getRowValueForColumn primaryAlias row ref
    if rawValue = .undefined ∨ rawValue = .null then
      collectNumericValuesGo primaryAlias ref distinct rest seen
    else
      match jsNumber rawValue with
      | none => collectNumericValuesGo primaryAlias ref distinct rest seen
      | some numeric =>
        if distinct then
          let key := serializeValueForKey (.num numeric)
          if seen.contains key then collectNumericValuesGo primaryAlias ref distinct rest seen
          else numeric :: collectNumericValuesGo primaryAlias ref distinct rest (seen ++ [key])
        else numeric :: collectNumericValuesGo primaryAlias ref distinct rest seen

/-- `collectNumericValues`: skip `undefined`/`null`, coerce by `Number`,
skip `NaN`; under `distinct`, deduplicate by serialised key. -/
def collectNumericValues (primaryAlias : String) (ref : ColumnReference)
    (rows : List Row) (distinct : Bool) : List ℚ :=
  collectNumericValuesGo primaryAlias ref distinct rows []

/-- `computeAggregateValue`: `count` with no column is the row count
(distinct rows under `distinct`); any other function with no resolvable
column is `null`; with a column, `count` counts the collected values,
`sum`/`avg`/`min`/`max` reduce the collected numeric values and are `null`
on an empty collection (`avg` divides the sum by the count, `min`/`max`
fold `Math.min`/`Math.max`). -/
def computeAggregateValue (env : AliasEnv) (agg : AggregateExpression)
    (rows : List Row) : Except String JsVal := do
  let columnRef ← resolveAggregateColumnRef env agg
  match columnRef with
  | none =>
    if agg.func = .count then
      pure (.num (if agg.distinct then (countDistinctRows rows : ℚ) else (rows.length : ℚ)))
    else pure .null
  | some ref =>
    match agg.func with
    | .count =>
      pure (.num ((collectValuesForCount env.primaryAlias ref rows agg.distinct).length : ℚ))
    | .sum =>
      let values := collectNumericValues env.primaryAlias ref rows agg.distinct
      pure (if values.isEmpty then .null else .num (values.foldl (· + ·) 0))
    | .avg =>
      let values := collectNumericValues env.primaryAlias ref rows agg.distinct
      pure (if values.isEmpty then .null
            else .num ((values.foldl (· + ·) 0) / (values.length : ℚ)))
    | .min =>
      let values := collectNumericValues env.primaryAlias ref rows agg.distinct
      match values with
      | [] => pure .null
      | v :: rest => pure (.num (rest.foldl Min.min v))
    | .max =>
      let values := collectNumericValues env.primaryAlias ref rows agg.distinct
      match values with
      | [] => pure .null
      | v :: rest => pure (.num (rest.foldl Max.max v))

/-! ## In-memory condition evaluation (`SelectQueryBuilder.evaluateCondition`) -/

/-- Numeric comparison after `Number(...)` coercion; any NaN operand makes
the comparison false (as in JS). -/
def numCompare (f : ℚ → ℚ → Bool) (a b : JsVal) : Bool :=
  match jsNumber a, jsNumber b with
  | some x, some y => f x y
  | _, _ => false

/-- `rowSet`: JS property assignment `row[k] = v` (overwrites in place,
appends otherwise). -/
def rowSet (row : Row) (k : String) (v : JsVal) : Row :=
  if rowHas row k then row.map (fun kv => if kv.1 = k then (k, v) else kv)
  else row ++ [(k, v)]

mutual

/-- `evaluateCondition` / `evaluateBinaryCondition` / `evaluateUnaryCondition`
/ `evaluateLogicalCondition` of the fallback planner.  A node without a
truthy `column` evaluates to `true` (this also makes `NOT` nodes built by
the `not(...)` constructor — which carry no column — evaluate to `true`);
the reference to an unknown alias throws, modelled by `.error`. -/
def evaluateCondition (env : AliasEnv) (row : Row) : QueryCondition → Except String Bool
  | .binary operator column value tbl =>
    match column with
    | none => pure true
    | some col =>
      if col = "" then pure true
      else do
        let columnRef ← resolveColumnReferenceStr env ((tbl.getD env.primaryAlias) ++ "." ++ col)
        let v := getRowValueForColumn env.primaryAlias row columnRef
        match strToUpper operator with
        | "=" => pure (jsStrictEq v value)
        | "!=" => pure (! jsStrictEq v value)
        | "<>" => pure (! jsStrictEq v value)
        | ">" => pure (numCompare (fun x y => x > y) v value)
        | ">=" => pure (numCompare (fun x y => x ≥ y) v value)
        | "<" => pure (numCompare (fun x y => x < y) v value)
        | "<=" => pure (numCompare (fun x y => x ≤ y) v value)
        | "IN" =>
          match value with
          | .arr vs => pure (vs.any (fun t => jsSameValueZero (.p t) v))
          | _ => pure false
        | "NOT IN" =>
          match value with
          | .arr vs => pure (! vs.any (fun t => jsSameValueZero (.p t) v))
          | _ => pure false
        | "LIKE" =>
          match v, value with
          | .p (.str vs), .p (.str ps) =>
            match computeLikeMatch vs ps with
            | some b => pure b
            | none => .error "SyntaxError: invalid regular expression"
          | _, _ => pure false
        | _ => pure true
  | .unary operator column left tbl =>
    match column with
    | none => pure true
    | some col =>
      if col = "" then pure true
      else do
        let columnRef ← resolveColumnReferenceStr env ((tbl.getD env.primaryAlias) ++ "." ++ col)
        let v := getRowValueForColumn env.primaryAlias row columnRef
        match strToUpper operator with
        | "IS NULL" => pure (v = .null ∨ v = .undefined)
        | "IS NOT NULL" => pure (v ≠ .null ∧ v ≠ .undefined)
        | "NOT" =>
          match left with
          | some l => (fun b => ! b) <$> evaluateCondition env row l
          | none => .error "TypeError: condition.left is undefined"
        | _ => pure true
  | .logical operator conditions =>
    if strToUpper operator = "AND" then evaluateAll env row conditions
    else if strToUpper operator = "OR" then evaluateAny env row conditions
    else pure true

/-- `children.every(...)` with short-circuit. -/
def evaluateAll (env : AliasEnv) (row : Row) : List QueryCondition → Except String Bool
  | [] => pure true
  | c :: cs => do
    let b ← evaluateCondition env row c
    if b then evaluateAll env row cs else pure false

/-- `children.some(...)` with short-circuit. -/
def evaluateAny (env : AliasEnv) (row : Row) : List QueryCondition → Except String Bool
  | [] => pure false
  | c :: cs => do
    let b ← evaluateCondition env row c
    if b then pure true else evaluateAny env row cs

end

/-- `applyJoinFilters`: nothing to filter when the collected join-filter
list is empty; otherwise keep the rows on which every join filter holds. -/
def applyJoinFilters (env : AliasEnv) (joinFilters : List QueryCondition)
    (rows : List Row) : Except String (List Row) :=
  if joinFilters.isEmpty then .ok rows
  else rows.filterM (fun row => evaluateAll env row joinFilters)

/-! ## Join merge (`SelectQueryBuilder.mergeRowsWithJoin` and friends) -/

/-- A registered join after `resolveJoinConditions`. -/
structure JoinDefModel where
  type : JoinType
  tblAlias : String
  tableName : String
  tableColumns : List String
  resolvedConditions : List ResolvedJoinCondition

/-- `createEmptyJoinRow`: `undefined` for every joined-alias column plus
`alias.subject` and `alias.id`. -/
def createEmptyJoinRow (join : JoinDefModel) : Row :=
  (join.tableColumns.map (fun c => (join.tblAlias ++ "." ++ c, JsVal.undefined)))
    ++ [(join.tblAlias ++ ".subject", JsVal.undefined), (join.tblAlias ++ ".id", JsVal.undefined)]

/-- Insertion into the `Map<string, Row[]>` of the hash join, preserving
first-insertion key order. -/
def joinMapInsert (m : List (String × List Row)) (k : String) (r : Row) :
    List (String × List Row) :=
  if m.any (fun kv => kv.1 = k) then
    m.map (fun kv => if kv.1 = k then (kv.1, kv.2 ++ [r]) else kv)
  else m ++ [(k, [r])]

/-- Lookup in the hash-join map (`?? []`). -/
def joinMapGet (m : List (String × List Row)) (k : String) : List Row :=
  match m.find? (fun kv => kv.1 = k) with
  | some kv => kv.2
  | none => []

/-- `mergeRowsWithJoin`: only the head of `resolvedConditions` takes part —
its joined-side column keys the hash built over the joined rows, its base
side is looked up per base row; an inner join drops key-less or match-less
base rows, any other join type emits the base row merged with the empty
join row; several matches produce one merged row each. -/
def mergeRowsWithJoin (primaryAlias : String) (baseRows : List Row)
    (join : JoinDefModel) (joinRows : List Row) : List Row :=
  match join.resolvedConditions with
  | [] => baseRows
  | primaryCondition :: _ =>
    let joinRef := if primaryCondition.left.tblAlias = join.tblAlias
      then primaryCondition.left else primaryCondition.right
    let baseRef := if primaryCondition.left.tblAlias = join.tblAlias
      then primaryCondition.right else primaryCondition.left
    let joinValueMap := joinRows.foldl (fun m joinRow =>
      let v := getRowValueForColumn primaryAlias joinRow joinRef
      if v = .undefined ∨ v = .null then m
      else joinMapInsert m (serializeValueForKey v) joinRow) []
    baseRows.foldl (fun merged baseRow =>
      let baseValue := getRowValueForColumn primaryAlias baseRow baseRef
      let key := serializeValueForKey baseValue
      let matchRows := if baseValue ≠ .undefined ∧ baseValue ≠ .null
        then joinMapGet joinValueMap key else []
      if matchRows.isEmpty then
        if join.type = .innerJoin then merged
        else merged ++ [rowMerge baseRow (createEmptyJoinRow join)]
      else merged ++ matchRows.map (fun m => rowMerge baseRow m)) []

/-- The claim's reading of one join-condition entry on a merged row:
both referenced columns carry the same value. -/
def specJoinEntryHolds (primaryAlias : String) (row : Row)
    (entry : ResolvedJoinCondition) : Bool :=
  getRowValueForColumn primaryAlias row entry.left
    = getRowValueForColumn primaryAlias row entry.right

/-! ## Select builder state and the fallback pipeline
(`SelectQueryBuilder.execute` and helpers) -/

/-- A select-list entry: a (possibly dotted) column reference string — the
`PodColumnBase` object form resolves through the same dotted name — or an
aggregate descriptor. -/
inductive SelectField where
  | columnRef (s : String) : SelectField
  | aggregate (agg : AggregateExpression) : SelectField
deriving DecidableEq

/-- Is the field an aggregate expression (`isAggregateExpression`)? -/
def isAggregateField : SelectField → Bool
  | .aggregate _ => true
  | .columnRef _ => false

/-- The `where` payload of an operation: a condition tree
(`this.conditionTree`) or a simple key/value map (`this.whereConditions`). -/
inductive WherePayload where
  | tree (c : QueryCondition) : WherePayload
  | simpleMap (m : List (String × JsVal)) : WherePayload

/-- The select `PodOperation` handed to `session.execute` / the dialect. -/
structure PodOperationModel where
  tableName : String
  whereP : Option WherePayload
  select : Option (List (String × SelectField))
  limit : Option ℕ
  offset : Option ℕ
  orderBy : List (String × Bool)
  distinct : Bool

/-- The state a `SelectQueryBuilder` has accumulated when `execute()` runs:
alias bookkeeping, the stored condition tree / simple map, joins, paging,
ordering, distinct, the select list, the collected join filters and the
group-by columns. -/
structure SelectBuilder where
  primaryAlias : String
  knownAliases : List String
  tableName : String
  conditionTree : Option QueryCondition
  whereConditions : Option (List (String × JsVal))
  joins : List JoinDefModel
  limitCount : Option ℕ
  offsetCount : Option ℕ
  orderByClauses : List (String × Bool)
  isDistinct : Bool
  selectedFields : Option (List (String × SelectField))
  joinFilters : List QueryCondition
  groupByColumns : List ColumnReference

/-- The alias environment of a builder. -/
def SelectBuilder.env (b : SelectBuilder) : AliasEnv :=
  ⟨b.primaryAlias, b.knownAliases⟩

/-- `shouldUseAggregateFallback`: group-by columns are present, or the
select list is non-empty and purely aggregates. -/
def shouldUseAggregateFallback (b : SelectBuilder) : Bool :=
  (! b.groupByColumns.isEmpty) ||
    (match b.selectedFields with
     | none => false
     | some fields => (! fields.isEmpty) && fields.all (fun kv => isAggregateField kv.2))

/-- `hasMixedAggregateSelection`: both an aggregate and a non-aggregate
field are selected. -/
def hasMixedAggregateSelection (b : SelectBuilder) : Bool :=
  match b.selectedFields with
  | none => false
  | some fields =>
    (fields.any (fun kv => isAggregateField kv.2))
      && (fields.any (fun kv => ! isAggregateField kv.2))

/-- Does the request require the fallback planner (`hasJoins`, group-by or
pure-aggregate select)? -/
def requiresFallback (b : SelectBuilder) : Bool :=
  (! b.joins.isEmpty) || shouldUseAggregateFallback b

/-- The operation `execute()` constructs before choosing a path:
`where` is `conditionTree ?? whereConditions`; limit, offset, order and
distinct are copied from the builder; `select` is not yet set. -/
def selectExecuteBaseOperation (b : SelectBuilder) : PodOperationModel :=
  { tableName := b.tableName
    whereP :=
      match b.conditionTree with
      | some t => some (.tree t)
      | none => b.whereConditions.map .simpleMap
    select := none
    limit := b.limitCount
    offset := b.offsetCount
    orderBy := b.orderByClauses
    distinct := b.isDistinct }

/-- The base operation sent to the engine on the fallback path: with joins
the select list is dropped; without joins it is dropped too, because the
fallback is then aggregate-driven (the middle source branch re-attaching
`selectedFields` is unreachable when the fallback is required). -/
def fallbackBaseOperation (b : SelectBuilder) : PodOperationModel :=
  let op := selectExecuteBaseOperation b
  if ¬ b.joins.isEmpty then { op with select := none }
  else if ¬ shouldUseAggregateFallback b then { op with select := b.selectedFields }
  else { op with select := none }

/-! ### Row normalization -/

/-- `normalizeBaseRows`: every key additionally recorded under
`alias.key`; the subject, when a non-empty string, recorded under
`alias.subject`, its extracted id under `alias.id` and under `id` when `id`
was still undefined. -/
def normalizeBaseRow (primaryAlias : String) (row : Row) : Row :=
  let base := row.foldl (fun r kv =>
    if kv.1 = primaryAlias ++ "." ++ kv.1 then r
    else rowSet r (primaryAlias ++ "." ++ kv.1) kv.2) row
  match rowGet row "subject" with
  | .p (.str s) =>
    if s = "" then base
    else
      let r1 := rowSet base (primaryAlias ++ ".subject") (.str s)
      match extractIdFromSubject s with
      | some derivedId =>
        let r2 := if rowGet r1 "id" = .undefined then rowSet r1 "id" (.str derivedId) else r1
        rowSet r2 (primaryAlias ++ ".id") (.str derivedId)
      | none => r1
  | _ => base

/-- `normalizeBaseRows` over a row list (the empty list short-circuits). -/
def normalizeBaseRows (primaryAlias : String) (rows : List Row) : List Row :=
  if rows.isEmpty then rows else rows.map (normalizeBaseRow primaryAlias)

/-- `normalizeJoinRows`: every key re-recorded under the join alias;
subject and extracted id under `alias.subject` / `alias.id`. -/
def normalizeJoinRows (join : JoinDefModel) (rows : List Row) : List Row :=
  rows.map (fun row =>
    let normalized := row.foldl (fun r kv => rowSet r (join.tblAlias ++ "." ++ kv.1) kv.2) []
    match rowGet row "subject" with
    | .p (.str s) =>
      if s = "" then normalized
      else
        let r1 := rowSet normalized (join.tblAlias ++ ".subject") (.str s)
        match extractIdFromSubject s with
        | some derivedId => rowSet r1 (join.tblAlias ++ ".id") (.str derivedId)
        | none => r1
    | _ => normalized)

/-- The primitives of a value list (row values of a join key are scalars;
an array among them cannot be nested into the `IN` list and is dropped). -/
def primsOfVals (vs : List JsVal) : List JsPrim :=
  vs.filterMap (fun v => match v with | .p q => some q | .arr _ => none)

/-- `fetchJoinRows`: the distinct base-side values of the *first* join
condition; nothing to fetch when none; a select on the joined table,
filtered by `inArray` over those values unless the join column is the
synthetic `id` (or unknown); results normalized to the join alias.  The
`engine` oracle stands for the nested `session.select().from(...)`
execution, which on this sub-request takes the native path. -/
def fetchJoinRows (primaryAlias : String) (engine : PodOperationModel → List Row)
    (join : JoinDefModel) (baseRows : List Row) : List Row :=
  match join.resolvedConditions with
  | [] => []
  | primaryCondition :: _ =>
    let joinRef := if primaryCondition.left.tblAlias = join.tblAlias
      then primaryCondition.left else primaryCondition.right
    let baseRef := if primaryCondition.left.tblAlias = join.tblAlias
      then primaryCondition.right else primaryCondition.left
    let uniqueValues := baseRows.foldl (fun (acc : List (String × JsVal)) row =>
      let v := getRowValueForColumn primaryAlias row baseRef
      if v = .undefined ∨ v = .null then acc
      else
        let key := serializeValueForKey v
        if acc.any (fun kv => kv.1 = key) then acc else acc ++ [(key, v)]) []
    if uniqueValues.isEmpty then []
    else
      let valuesArray := uniqueValues.map (fun kv => kv.2)
      let hasJoinColumn := join.tableColumns.contains joinRef.column
      let whereTree :=
        if hasJoinColumn ∧ joinRef.column ≠ "id" then
          some (QueryCondition.binary "IN" (some joinRef.column)
            (.arr (primsOfVals valuesArray)) (some join.tableName))
        else none
      let op : PodOperationModel :=
        { tableName := join.tableName
          whereP := whereTree.map .tree
          select := none, limit := none, offset := none
          orderBy := [], distinct := false }
      normalizeJoinRows join (engine op)

/-- `applyJoinFallback`: joins processed in registration order, each fetch
merged into the running row set. -/
def applyJoinFallback (primaryAlias : String) (engine : PodOperationModel → List Row)
    (joins : List JoinDefModel) (rows : List Row) : List Row :=
  joins.foldl (fun combined join =>
    mergeRowsWithJoin primaryAlias combined join
      (fetchJoinRows primaryAlias engine join combined)) rows

/-! ### Projection and the aggregate fallback -/

/-- Deduplicate keeping first occurrences (a JS `Set`'s iteration order). -/
def dedupKeepOrder (l : List String) : List String :=
  l.foldl (fun acc s => if acc.contains s then acc else acc ++ [s]) []

/-- `resolveFieldBindingCandidates`: the output alias, then for a string
field the raw reference, its bare column and its qualified form. -/
def resolveFieldBindingCandidates (key : String) (field : SelectField) : List String :=
  match field with
  | .columnRef s =>
    let (refAlias, column) := parseColumnReferenceString s
    dedupKeepOrder ([key, s, column] ++
      (match refAlias with | some a => [a ++ "." ++ column] | none => []))
  | .aggregate _ => [key]

/-- `projectSelectedRow`: aggregates copy the already-computed value under
the alias; other fields take the first candidate key bound to a defined
value, else `row[key]`. -/
def projectSelectedRow (fields : List (String × SelectField)) (row : Row) : Row :=
  fields.foldl (fun projected kv =>
    match kv.2 with
    | .aggregate _ => rowSet projected kv.1 (rowGet row kv.1)
    | f =>
      match (resolveFieldBindingCandidates kv.1 f).find? (fun c => rowGet row c ≠ .undefined) with
      | some c => rowSet projected kv.1 (rowGet row c)
      | none => rowSet projected kv.1 (rowGet row kv.1)) []

/-- `buildAggregateRow`: one computed scalar per aggregate field. -/
def buildAggregateRow (env : AliasEnv) (fields : List (String × SelectField))
    (rows : List Row) : Except String Row :=
  fields.foldlM (fun result kv =>
    match kv.2 with
    | .aggregate agg => do
      let v ← computeAggregateValue env agg rows
      pure (rowSet result kv.1 v)
    | .columnRef _ => pure result) []

/-- The group key: `JSON.stringify` of the serialised group-by values. -/
def groupKeyOf (env : AliasEnv) (groupCols : List ColumnReference) (row : Row) : String :=
  jsonStringify (.arr (groupCols.map (fun ref =>
    .str (serializeValueForKey (getRowValueForColumn env.primaryAlias row ref)))))

/-- `ensureGroupByValidity`: every selected non-aggregate column must be one
of the group-by columns (resolution of a bad reference also throws). -/
def ensureGroupByValidity (env : AliasEnv) (groupCols : List ColumnReference)
    (fields : List (String × SelectField)) : Except String Unit :=
  let groupColumns := groupCols.map (fun ref => ref.tblAlias ++ "." ++ ref.column)
  fields.foldlM (fun _ kv =>
    match kv.2 with
    | .aggregate _ => pure ()
    | .columnRef s => do
      let columnRef ← resolveColumnReferenceStr env s
      let identifier := columnRef.tblAlias ++ "." ++ columnRef.column
      if groupColumns.contains identifier then pure ()
      else .error ("Column " ++ identifier ++
        " must appear in GROUP BY clause when mixed with aggregates")) ()

/-- `buildGroupedAggregateRows`: validate, partition the rows by group key
(first row kept as the group's representative), then project one output row
per group — aggregates from the group's rows, plain columns from its first
row. -/
def buildGroupedAggregateRows (b : SelectBuilder)
    (fields : List (String × SelectField)) (rows : List Row) :
    Except String (List Row) := do
  ensureGroupByValidity b.env b.groupByColumns fields
  let groups := rows.foldl (fun (gs : List (String × (List Row × Row))) row =>
    let key := groupKeyOf b.env b.groupByColumns row
    if gs.any (fun g => g.1 = key) then
      gs.map (fun g => if g.1 = key then (g.1, (g.2.1 ++ [row], g.2.2)) else g)
    else gs ++ [(key, ([row], row))]) []
  groups.mapM (fun g => do
    let aggregateValues ← buildAggregateRow b.env fields g.2.1
    fields.foldlM (fun projected kv =>
      match kv.2 with
      | .aggregate _ => pure (rowSet projected kv.1 (rowGet aggregateValues kv.1))
      | .columnRef s => do
        let columnRef ← resolveColumnReferenceStr b.env s
        pure (rowSet projected kv.1
          (getRowValueForColumn b.env.primaryAlias g.2.2 columnRef))) [])

/-- `handleAggregateFallback`: with no select list, group-by reduces to one
representative row per group key (or passes rows through); with a select
list, no group-by builds the single total-aggregate row, otherwise the
grouped projection. -/
def handleAggregateFallback (b : SelectBuilder) (rows : List Row) :
    Except String (List Row) :=
  match b.selectedFields with
  | none =>
    if b.groupByColumns.isEmpty then .ok rows
    else
      .ok ((rows.foldl (fun (acc : List String × List Row) row =>
        let key := groupKeyOf b.env b.groupByColumns row
        if acc.1.contains key then acc
        else (acc.1 ++ [key], acc.2 ++ [row])) ([], [])).2)
  | some fields =>
    if b.groupByColumns.isEmpty then do
      let r ← buildAggregateRow b.env fields rows
      pure [r]
    else buildGroupedAggregateRows b fields rows

/-! ### `execute()` -/

/-- Everything `execute()` does to the engine's base rows on the fallback
path: join normalization / merging / filtering when joins are present, then
the aggregate fallback or the projection.  The engine oracle is still needed
for the joined-table fetches. -/
def fallbackPostProcess (b : SelectBuilder) (engine : PodOperationModel → List Row)
    (rows : List Row) : Except String (List Row) := do
  let rows2 ←
    if ¬ b.joins.isEmpty then do
      let r1 := normalizeBaseRows b.primaryAlias rows
      let r2 := applyJoinFallback b.primaryAlias engine b.joins r1
      applyJoinFilters b.env b.joinFilters r2
    else pure rows
  if shouldUseAggregateFallback b then handleAggregateFallback b rows2
  else
    match b.selectedFields with
    | some fields => pure (rows2.map (projectSelectedRow fields))
    | none => pure rows2

/-- `SelectQueryBuilder.execute` (the non-SQL-AST branch): the mixed-select
validation, then either the native path (one engine call, the select list
attached, projection of the direct results) or the fallback path. -/
def executeSelect (b : SelectBuilder) (engine : PodOperationModel → List Row) :
    Except String (List Row) :=
  if b.groupByColumns.isEmpty ∧ hasMixedAggregateSelection b then
    .error "Mixed aggregate and non-aggregate selections require groupBy columns"
  else if ¬ requiresFallback b then
    let op := { selectExecuteBaseOperation b with select := b.selectedFields }
    let directResults := engine op
    .ok (match b.selectedFields with
      | some fields => directResults.map (projectSelectedRow fields)
      | none => directResults)
  else
    fallbackPostProcess b engine (engine (fallbackBaseOperation b))

/-! ## Claim-side readings and concrete fixtures -/

/-- The claim's criterion for bypassing the select in a conditional update:
the where tree reduces to a subject identifier — an equality on `id` with a
defined value, or an `IN` over `id`. -/
def specReducesToSubjectIdentifier : QueryCondition → Bool
  | .binary op (some c) v _ =>
    if c = "id" then
      (op == "=" && !(v == JsVal.undefined))
        || (op == "IN" && (match v with | .arr _ => true | .p _ => false))
    else false
  | _ => false

/-- The claim's reading of the fallback base select: projection, distinct,
limit, offset and order all dropped. -/
def specClaimedBaseDrop (op : PodOperationModel) : Bool :=
  op.select == none && op.distinct == false && op.limit == none
    && op.offset == none && op.orderBy == []

/-- A fallback-requiring builder: group-by on `age`, with distinct, order,
offset 2 and limit 1 all set. -/
def c2FallbackBuilder : SelectBuilder :=
  { primaryAlias := "profiles", knownAliases := ["profiles"], tableName := "profiles"
    conditionTree := none, whereConditions := none, joins := []
    limitCount := some 1, offsetCount := some 2
    orderByClauses := [("age", false)], isDistinct := true
    selectedFields := none, joinFilters := [], groupByColumns := [⟨"profiles", "age"⟩] }

/-- An engine returning three rows with three distinct `age` values. -/
def c2FallbackEngine : PodOperationModel → List Row := fun _ =>
  [[("age", .str "20")], [("age", .str "25")], [("age", .str "30")]]

/-- The alias environment of the join counterexample: primary `users`,
joined `posts`. -/
def c3Env : AliasEnv := ⟨"users", ["users", "posts"]⟩

/-- An inner join on `posts` with two condition entries:
`posts.authorId = users.id` and `posts.status = users.status`. -/
def c3Join : JoinDefModel :=
  { type := .innerJoin, tblAlias := "posts", tableName := "posts"
    tableColumns := ["id", "title", "authorId", "status"]
    resolvedConditions :=
      [⟨⟨"posts", "authorId"⟩, ⟨"users", "id"⟩⟩,
       ⟨⟨"posts", "status"⟩, ⟨"users", "status"⟩⟩] }

/-- A base row whose `status` is `active`. -/
def c3BaseRow : Row := [("id", .str "u1"), ("status", .str "active")]

/-- A joined row matching on `authorId = id` but with `status` `archived`. -/
def c3JoinRow : Row :=
  [("posts.id", .str "p1"), ("posts.authorId", .str "u1"), ("posts.status", .str "archived")]

/-- The merged row the hash join produces for the rows above. -/
def c3MergedRow : Row :=
  [("id", .str "u1"), ("status", .str "active"),
   ("posts.id", .str "p1"), ("posts.authorId", .str "u1"), ("posts.status", .str "archived")]

/-- The second (remaining) condition entry of the join. -/
def c3SecondEntry : ResolvedJoinCondition := ⟨⟨"posts", "status"⟩, ⟨"users", "status"⟩⟩

/-- The aggregate witness environment: one table aliased `t`. -/
def c8Env : AliasEnv := ⟨"t", ["t"]⟩

/-- The `age` column of the witness table. -/
def c8Ref : ColumnReference := ⟨"t", "age"⟩

/-- Witness rows: ages 20 and 30, a `null`, a `NaN` and a missing value. -/
def c8Rows : List Row :=
  [[("age", .num 20)], [("age", .num 30)], [("age", .null)], [("age", .nan)], []]

/-! ## Helper lemmas -/

/-- `takeWhile` passes over a block that wholly satisfies the predicate. -/
theorem takeWhile_append_all {α : Type} (p : α → Bool) (l₁ l₂ : List α)
    (h : ∀ x ∈ l₁, p x = true) :
    (l₁ ++ l₂).takeWhile p = l₁ ++ l₂.takeWhile p := by
  induction l₁ with
  | nil => rfl
  | cons a as ih =>
    have ha : p a = true := h a (by simp)
    have hrest : ∀ x ∈ as, p x = true := fun x hx => h x (by simp [hx])
    simp [List.takeWhile_cons, ha, ih hrest]

/-- `String.toList` distributes over append. -/
theorem strToList_append (a b : String) : (a ++ b).toList = a.toList ++ b.toList := rfl

/-- `String.mk` undoes `String.toList`. -/
theorem stringMk_toList (s : String) : String.mk s.toList = s := rfl

/-- A string whose character list is non-empty is not the empty string. -/
theorem string_ne_empty_of_toList {s : String} (h : s.toList ≠ []) : s ≠ "" := by
  intro he; exact h (by rw [he]; rfl)

/-! ## C10 — subject URI / id round trip -/

/-- The last URI segment of a string of the shape `pre # id` is `id` when
`id` avoids `/` and `#`. -/
theorem lastUriSegment_of_shape (s : String) (pre : List Char) (id : String)
    (hs : s.toList = pre ++ '#' :: id.toList)
    (hgood : ∀ ch ∈ id.toList, ch ≠ '/' ∧ ch ≠ '#') :
    lastUriSegment s = id := by
  unfold lastUriSegment
  rw [hs]
  have hrev : (pre ++ '#' :: id.toList).reverse
      = id.toList.reverse ++ '#' :: pre.reverse := by
    simp
  rw [hrev]
  rw [takeWhile_append_all (fun c : Char => decide (c ≠ '/' ∧ c ≠ '#'))
    id.toList.reverse ('#' :: pre.reverse) ?hall]
  case hall =>
    intro x hx
    have := hgood x (List.mem_reverse.mp hx)
    simp [this.1, this.2]
  simp [List.takeWhile_cons, stringMk_toList]

/-- C10: for every table and record whose id is a non-empty string without
`/` or `#`, extracting the id back from the generated subject URI recovers
exactly that id — the URI ends in `#` followed by the id, and
`extractIdFromSubject` takes the maximal suffix free of `/` and `#`. -/
theorem c10_subject_id_roundtrip (podUrl userPath containerPath id : String)
    (nowMs : ℕ) (hne : id ≠ "")
    (hgood : ∀ ch ∈ id.toList, ch ≠ '/' ∧ ch ≠ '#') :
    extractIdFromSubject
      (generateSubjectUri podUrl userPath containerPath (some id) nowMs) = some id := by
  have hgen : generateSubjectUri podUrl userPath containerPath (some id) nowMs
      = (podUrl ++
          (if strStartsWith (stripOneTrailingSlash
                (if containerPath = "" then "/data/" else containerPath)) userPath
           then stripOneTrailingSlash (if containerPath = "" then "/data/" else containerPath)
           else userPath ++ stripOneLeadingSlash (stripOneTrailingSlash
                (if containerPath = "" then "/data/" else containerPath)))) ++
        "#" ++ id := by
    unfold generateSubjectUri
    simp [hne]
  set P : String := podUrl ++
      (if strStartsWith (stripOneTrailingSlash
            (if containerPath = "" then "/data/" else containerPath)) userPath
       then stripOneTrailingSlash (if containerPath = "" then "/data/" else containerPath)
       else userPath ++ stripOneLeadingSlash (stripOneTrailingSlash
            (if containerPath = "" then "/data/" else containerPath))) with hP
  rw [hgen]
  have hlist : (P ++ "#" ++ id).toList = (P.toList ++ ['#']) ++ id.toList := by
    rw [strToList_append, strToList_append]
    rfl
  have hlist' : (P ++ "#" ++ id).toList = P.toList ++ '#' :: id.toList := by
    rw [hlist, List.append_assoc]
    rfl
  have hsubne : P ++ "#" ++ id ≠ "" := by
    apply string_ne_empty_of_toList
    rw [hlist']
    intro hcontra
    exact absurd (List.append_eq_nil.mp hcontra).2 (by simp)
  have hseg : lastUriSegment (P ++ "#" ++ id) = id :=
    lastUriSegment_of_shape _ P.toList id hlist' hgood
  simp [extractIdFromSubject, hsubne, hseg, hne]

/-! ## C6 — empty batch insert -/

/-- C6 counterexample: inserting an empty batch does not return an empty
result array — the dialect throws `INSERT operation requires at least one
value` (before any HTTP phase). -/
theorem c6_empty_insert_counterexample :
    dialectInsertBranch (.batch []) "http://pod/alice/data/"
        "http://pod/alice/data/profiles.ttl" []
      = ([], .error "INSERT operation requires at least one value")
    ∧ (dialectInsertBranch (.batch []) "http://pod/alice/data/"
        "http://pod/alice/data/profiles.ttl" []).2 ≠ .ok [] := by
  exact ⟨rfl, by decide⟩

/-- C6 amended: an empty batch insert performs no HTTP traffic (the error is
raised before the container/resource/duplicate/SPARQL phases) but raises
`INSERT operation requires at least one value` instead of returning an empty
result array. -/
theorem c6_empty_insert_amended :
    ∀ (containerUrl resourceUrl : String) (engineRows : List Row),
      dialectInsertBranch (.batch []) containerUrl resourceUrl engineRows
        = ([], .error "INSERT operation requires at least one value") := by
  intro containerUrl resourceUrl engineRows
  rfl

/-! ## C5 — delete of a missing resource -/

/-- C5 counterexample: a delete whose `where` is a condition tree that does
not reduce to a simple map routes to the complex executor, and there a
missing resource throws `Resource not found` instead of returning the
`[\x7bsuccess: true, source, status: 404\x7d]` row. -/
theorem c5_delete_missing_counterexample :
    builderConditionRoute (Conditions.orCond
        [Conditions.eqCond "name" (.str "A"), Conditions.eqCond "name" (.str "C")])
      = .complexPath
    ∧ executeComplexDelete "http://pod/alice/data/profiles.ttl" false []
        = .error ("Resource not found: " ++ "http://pod/alice/data/profiles.ttl")
    ∧ executeComplexDelete "http://pod/alice/data/profiles.ttl" false []
        ≠ .ok (specClaimedDeleteMissingResult "http://pod/alice/data/profiles.ttl") := by
  refine ⟨rfl, rfl, by decide⟩

/-- C5 amended: deleting from a missing resource returns
`[\x7bsuccess: true, source, status: 404\x7d]` on the `PodDialect.query`
path — taken by simple key/value `where` maps and by condition trees that
reduce to one (a binary node with a column and a defined value) — while a
condition tree on the complex path throws `Resource not found` instead. -/
theorem c5_delete_missing_amended :
    (∀ (url : String) (proceedRows : List Row),
      dialectDeleteViaQuery url false proceedRows = [deleteMissingResourceRow url])
    ∧ (∀ (url : String) (subjects : List String),
      executeComplexDelete url false subjects = .error ("Resource not found: " ++ url))
    ∧ (∀ (op c : String) (v : JsVal) (t : Option String), c ≠ "" → v ≠ JsVal.undefined →
      builderConditionRoute (.binary op (some c) v t) = .nativeTemplate) := by
  refine ⟨fun url rows => rfl, fun url subjects => rfl, ?_⟩
  intro op c v t hc hv
  unfold builderConditionRoute convertQueryConditionToSimple
  simp [hc, hv]

/-! ## C4 — predicate resolution order -/

/-- C4 counterexample: a column named `name` with no explicit predicate on a
table without a namespace resolves to `https://schema.org/name`, not to the
claimed built-in `foaf:name` (nor ever to `http://example.org/name`). -/
theorem c4_predicate_counterexample :
    getPredicateForColumn ⟨"name", none, false⟩ none = "https://schema.org/name"
    ∧ specClaimedPredicateResolution ⟨"name", none, false⟩ none
        = "http://xmlns.com/foaf/0.1/name"
    ∧ getPredicateForColumn ⟨"name", none, false⟩ none
        ≠ specClaimedPredicateResolution ⟨"name", none, false⟩ none := by
  refine ⟨by decide, by decide, by decide⟩

/-- C4 amended: the predicate of a schema column resolves as explicit
`options.predicate` first, else the table namespace URI concatenated with
the column name, else `https://schema.org/` concatenated with the column
name — `PodColumnBase.getPredicate` intercepts before the translator's
built-in default table and `http://example.org/` fallback, which are
unreachable for schema columns. -/
theorem c4_predicate_amended :
    ∀ (col : PodColumn) (ns : Option NamespaceConfig),
      (∀ p, col.optionsPredicate = some p → getPredicateForColumn col ns = p)
      ∧ (col.optionsPredicate = none → ∀ n, ns = some n →
          getPredicateForColumn col ns = n.uri ++ col.name)
      ∧ (col.optionsPredicate = none → ns = none →
          getPredicateForColumn col ns = "https://schema.org/" ++ col.name) := by
  intro col ns
  obtain ⟨nm, op, req⟩ := col
  refine ⟨?_, ?_, ?_⟩
  · intro p hp
    cases hp
    rfl
  · rintro rfl n rfl
    rfl
  · rintro rfl rfl
    rfl

/-! ## C1 — conditional update routing -/

/-- C1 counterexample: a `gt` condition on a non-id column — which the claim
says must take the select-then-per-subject path — converts to a simple map
and takes the native template path; so does a plain equality on a non-id
column. -/
theorem c1_update_route_counterexample :
    builderConditionRoute (Conditions.gtCond "age" (.num 5)) = .nativeTemplate
    ∧ specReducesToSubjectIdentifier (Conditions.gtCond "age" (.num 5)) = false
    ∧ builderConditionRoute (Conditions.eqCond "name" (.str "Alice")) = .nativeTemplate
    ∧ specReducesToSubjectIdentifier (Conditions.eqCond "name" (.str "Alice")) = false := by
  refine ⟨by decide, by decide, by decide, by decide⟩

/-- C1 amended: the update builder bypasses the select exactly when the
where tree is a binary node with a truthy column and a defined value — the
operator (and whether the column is `id`) is not inspected; all other trees
(logical nodes, null tests, column-less or value-less nodes) go to the
complex executor, which emits one per-subject update per subject found by
the discovery SELECT. -/
theorem c1_update_route_amended :
    (∀ cond : QueryCondition,
      builderConditionRoute cond = .nativeTemplate ↔
        ∃ op c v t, cond = .binary op (some c) v t ∧ c ≠ "" ∧ v ≠ JsVal.undefined)
    ∧ (∀ (url : String) (cols : List String) (subjects : List String),
        cols ≠ [] →
        executeComplexUpdate url cols true subjects
          = .ok (subjects.map (complexResultRow url))) := by
  constructor
  · intro cond
    cases cond with
    | binary op col v t =>
      cases col with
      | none =>
        simp only [builderConditionRoute, convertQueryConditionToSimple,
          List.isEmpty_nil, if_true]
        constructor
        · intro hcontra; cases hcontra
        · rintro ⟨op', c', v', t', heq, hc', hv'⟩
          cases heq
      | some c =>
        by_cases h : c ≠ "" ∧ v ≠ JsVal.undefined
        · simp only [builderConditionRoute, convertQueryConditionToSimple, if_pos h,
            List.isEmpty_cons, Bool.false_eq_true, if_false]
          constructor
          · intro _
            exact ⟨op, c, v, t, rfl, h.1, h.2⟩
          · intro _
            trivial
        · simp only [builderConditionRoute, convertQueryConditionToSimple, if_neg h,
            List.isEmpty_nil, if_true]
          constructor
          · intro hcontra; cases hcontra
          · rintro ⟨op', c', v', t', heq, hc', hv'⟩
            cases heq
            exact absurd ⟨hc', hv'⟩ h
    | unary op col l t =>
      simp only [builderConditionRoute, convertQueryConditionToSimple,
        List.isEmpty_nil, if_true]
      constructor
      · intro hcontra; cases hcontra
      · rintro ⟨op', c', v', t', heq, hc', hv'⟩
        cases heq
    | logical op cs =>
      simp only [builderConditionRoute, convertQueryConditionToSimple,
        List.isEmpty_nil, if_true]
      constructor
      · intro hcontra; cases hcontra
      · rintro ⟨op', c', v', t', heq, hc', hv'⟩
        cases heq
  · intro url cols subjects hcols
    unfold executeComplexUpdate
    simp [hcols]

/-! ## C7 — join condition validation -/

/-- Helper: every entry an `.ok` of `resolveJoinConditionEntries` returns
references the joined alias on at least one side. -/
theorem resolveJoinConditionEntries_sides (env : AliasEnv) (a : String) :
    ∀ (condition : List (String × String)) (lst : List ResolvedJoinCondition),
      resolveJoinConditionEntries env a condition = .ok lst →
      ∀ e ∈ lst, e.left.tblAlias = a ∨ e.right.tblAlias = a := by
  intro condition
  induction condition with
  | nil =>
    intro lst h e he
    simp only [resolveJoinConditionEntries] at h
    cases h
    cases he
  | cons entry rest ih =>
    intro lst h e he
    simp only [resolveJoinConditionEntries] at h
    cases hl : resolveColumnReferenceStr env entry.1 with
    | error msg =>
      rw [hl] at h
      simp only [Bind.bind, Except.bind] at h
      cases h
    | ok leftRef =>
      rw [hl] at h
      cases hr : resolveColumnReferenceStr env entry.2 with
      | error msg =>
        rw [hr] at h
        simp only [Bind.bind, Except.bind] at h
        cases h
      | ok rightRef =>
        rw [hr] at h
        simp only [Bind.bind, Except.bind] at h
        by_cases hside : leftRef.tblAlias ≠ a ∧ rightRef.tblAlias ≠ a
        · rw [if_pos hside] at h
          cases h
        · rw [if_neg hside] at h
          cases hrest : resolveJoinConditionEntries env a rest with
          | error msg =>
            rw [hrest] at h
            cases h
          | ok restResolved =>
            rw [hrest] at h
            simp only [pure, Except.pure] at h
            cases h
            rcases List.mem_cons.mp he with rfl | hmem
            · rcases not_and_or.mp hside with hs | hs
              · exact Or.inl (not_not.mp hs)
              · exact Or.inr (not_not.mp hs)
            · exact ih restResolved hrest e hmem

/-- C7 counterexample: an entry referencing the joined alias (`posts`) on
*both* sides is accepted by `resolveJoinConditions`, contrary to the claim
that it is rejected at build time. -/
theorem c7_join_condition_counterexample :
    resolveJoinConditions ⟨"users", ["users", "posts"]⟩
        [("posts.id", "posts.authorId")] "posts"
      = .ok [⟨⟨"posts", "id"⟩, ⟨"posts", "authorId"⟩⟩] := by
  decide

/-- C7 amended: an empty join condition object raises a programmer error,
every accepted entry references the joined alias on *at least one* side
(an entry referencing it on neither side is rejected, one referencing it on
both sides is accepted), and `rightJoin` / `fullJoin` are rejected before
conditions are resolved. -/
theorem c7_join_conditions_amended :
    (∀ (env : AliasEnv) (a : String),
      resolveJoinConditions env [] a = .error "JOIN condition cannot be empty")
    ∧ (∀ (env : AliasEnv) (condition : List (String × String)) (a : String)
        (lst : List ResolvedJoinCondition),
        resolveJoinConditions env condition a = .ok lst →
        ∀ e ∈ lst, e.left.tblAlias = a ∨ e.right.tblAlias = a)
    ∧ addJoinCheck .rightJoin = .error "join type is not yet supported in Solid dialect"
    ∧ addJoinCheck .fullJoin = .error "join type is not yet supported in Solid dialect" := by
  refine ⟨fun env a => rfl, ?_, rfl, rfl⟩
  intro env condition a lst h e he
  unfold resolveJoinConditions at h
  by_cases hempty : condition.isEmpty
  · rw [if_pos hempty] at h
    cases h
  · rw [if_neg hempty] at h
    exact resolveJoinConditionEntries_sides env a condition lst h e he

/-! ## C3 — multi-condition join merge -/

/-- C3 counterexample: with a two-entry inner join, the hash join keys only
on the first entry; a merged row violating the second entry
(`posts.status = users.status`) survives the merge and the join-filter pass
untouched. -/
theorem c3_join_conditions_counterexample :
    mergeRowsWithJoin "users" [c3BaseRow] c3Join [c3JoinRow] = [c3MergedRow]
    ∧ applyJoinFilters c3Env [] (mergeRowsWithJoin "users" [c3BaseRow] c3Join [c3JoinRow])
        = .ok [c3MergedRow]
    ∧ specJoinEntryHolds "users" c3MergedRow c3SecondEntry = false
    ∧ c3Join.resolvedConditions.length = 2 := by
  refine ⟨by decide, by decide, by decide, rfl⟩

/-- C3 amended: only the first condition entry of a join takes part in the
merge — the merge result is independent of the remaining entries, which are
never evaluated (the post-filter pass runs only the `joinFilters` collected
from `where()`, and an empty filter list passes every merged row through). -/
theorem c3_join_merge_amended :
    (∀ (primaryAlias : String) (baseRows joinRows : List Row) (ty : JoinType)
       (al tn : String) (cols : List String) (c : ResolvedJoinCondition)
       (cs : List ResolvedJoinCondition),
      mergeRowsWithJoin primaryAlias baseRows ⟨ty, al, tn, cols, c :: cs⟩ joinRows
        = mergeRowsWithJoin primaryAlias baseRows ⟨ty, al, tn, cols, [c]⟩ joinRows)
    ∧ (∀ (env : AliasEnv) (rows : List Row), applyJoinFilters env [] rows = .ok rows) := by
  exact ⟨fun _ _ _ _ _ _ _ _ _ => rfl, fun _ _ => rfl⟩

/-! ## C2 — fallback base select and post-merge handling -/

/-- C2 counterexample: a group-by request with distinct, order, offset and
limit set requires the fallback; the base operation sent to the engine
*retains* all four (the claim says they are dropped), and nothing re-applies
them afterwards — with limit 1 the pipeline still returns all three grouped
rows. -/
theorem c2_fallback_counterexample :
    requiresFallback c2FallbackBuilder = true
    ∧ specClaimedBaseDrop (fallbackBaseOperation c2FallbackBuilder) = false
    ∧ (fallbackBaseOperation c2FallbackBuilder).limit = some 1
    ∧ (fallbackBaseOperation c2FallbackBuilder).offset = some 2
    ∧ (fallbackBaseOperation c2FallbackBuilder).distinct = true
    ∧ (fallbackBaseOperation c2FallbackBuilder).orderBy = [("age", false)]
    ∧ executeSelect c2FallbackBuilder c2FallbackEngine
        = .ok [[("age", .str "20")], [("age", .str "25")], [("age", .str "30")]] := by
  refine ⟨by decide, by decide, by decide, by decide, by decide, by decide, by decide⟩

/-- C2 amended: on the fallback path only the projection is dropped from the
base select — limit, offset, order and distinct are passed through to the
engine unchanged — and none of the five are re-applied in memory: the
post-merge processing does not depend on the builder's limit, offset, order
or distinct at all. -/
theorem c2_fallback_amended :
    ∀ b : SelectBuilder, requiresFallback b = true →
      (fallbackBaseOperation b).select = none
      ∧ (fallbackBaseOperation b).limit = b.limitCount
      ∧ (fallbackBaseOperation b).offset = b.offsetCount
      ∧ (fallbackBaseOperation b).orderBy = b.orderByClauses
      ∧ (fallbackBaseOperation b).distinct = b.isDistinct
      ∧ (∀ (engine : PodOperationModel → List Row) (rows : List Row)
          (L O : Option ℕ) (Ord : List (String × Bool)) (D : Bool),
          fallbackPostProcess
            { b with limitCount := L, offsetCount := O,
                     orderByClauses := Ord, isDistinct := D } engine rows
            = fallbackPostProcess b engine rows) := by
  intro b hreq
  have hsel : (fallbackBaseOperation b).select = none := by
    unfold fallbackBaseOperation selectExecuteBaseOperation
    by_cases hj : b.joins.isEmpty
    · have hagg : shouldUseAggregateFallback b = true := by
        unfold requiresFallback at hreq
        rcases Bool.or_eq_true_iff.mp hreq with h | h
        · rw [Bool.not_eq_true'] at h
          exact absurd hj (by rw [h]; intro hc; cases hc)
        · exact h
      simp [hj, hagg]
    · simp [hj]
  refine ⟨hsel, ?_, ?_, ?_, ?_, ?_⟩
  · unfold fallbackBaseOperation selectExecuteBaseOperation
    by_cases hj : b.joins.isEmpty <;>
      by_cases ha : shouldUseAggregateFallback b <;> simp [hj, ha]
  · unfold fallbackBaseOperation selectExecuteBaseOperation
    by_cases hj : b.joins.isEmpty <;>
      by_cases ha : shouldUseAggregateFallback b <;> simp [hj, ha]
  · unfold fallbackBaseOperation selectExecuteBaseOperation
    by_cases hj : b.joins.isEmpty <;>
      by_cases ha : shouldUseAggregateFallback b <;> simp [hj, ha]
  · unfold fallbackBaseOperation selectExecuteBaseOperation
    by_cases hj : b.joins.isEmpty <;>
      by_cases ha : shouldUseAggregateFallback b <;> simp [hj, ha]
  · intro engine rows L O Ord D
    rfl

/-- C2 witness: the theorem applied to the concrete fallback builder. -/
theorem c2_fallback_amended_witness :
    (fallbackBaseOperation c2FallbackBuilder).select = none
    ∧ (fallbackBaseOperation c2FallbackBuilder).limit = c2FallbackBuilder.limitCount := by
  have h := c2_fallback_amended c2FallbackBuilder (by decide)
  exact ⟨h.1, h.2.1⟩

/-! ## C8 — aggregate semantics -/

/-- `Math.min` folded over a list lands in the list. -/
theorem foldl_min_mem (v : ℚ) (rest : List ℚ) : rest.foldl Min.min v ∈ v :: rest := by
  induction rest generalizing v with
  | nil => simp
  | cons a as ih =>
    simp only [List.foldl_cons]
    rcases List.mem_cons.mp (ih (Min.min v a)) with h | h
    · rcases min_choice v a with hm | hm
      · rw [h, hm]; simp
      · rw [h, hm]; simp
    · simp [List.mem_cons.mpr (Or.inr h)]

/-- `Math.min` folded over a list bounds every element from below. -/
theorem foldl_min_le (v : ℚ) (rest : List ℚ) :
    ∀ x ∈ v :: rest, rest.foldl Min.min v ≤ x := by
  induction rest generalizing v with
  | nil =>
    intro x hx
    rcases List.mem_cons.mp hx with heq | h
    · rw [heq]; simp
    · cases h
  | cons a as ih =>
    intro x hx
    simp only [List.foldl_cons]
    rcases List.mem_cons.mp hx with heq | hx'
    · rw [heq]
      exact le_trans (ih (Min.min v a) _ (List.mem_cons_self _ _)) (min_le_left v a)
    · rcases List.mem_cons.mp hx' with heq | hmem
      · rw [heq]
        exact le_trans (ih (Min.min v a) _ (List.mem_cons_self _ _)) (min_le_right v a)
      · exact ih (Min.min v a) x (List.mem_cons.mpr (Or.inr hmem))

/-- `Math.max` folded over a list lands in the list. -/
theorem foldl_max_mem (v : ℚ) (rest : List ℚ) : rest.foldl Max.max v ∈ v :: rest := by
  induction rest generalizing v with
  | nil => simp
  | cons a as ih =>
    simp only [List.foldl_cons]
    rcases List.mem_cons.mp (ih (Max.max v a)) with h | h
    · rcases max_choice v a with hm | hm
      · rw [h, hm]; simp
      · rw [h, hm]; simp
    · simp [List.mem_cons.mpr (Or.inr h)]

/-- `Math.max` folded over a list bounds every element from above. -/
theorem foldl_max_le (v : ℚ) (rest : List ℚ) :
    ∀ x ∈ v :: rest, x ≤ rest.foldl Max.max v := by
  induction rest generalizing v with
  | nil =>
    intro x hx
    rcases List.mem_cons.mp hx with heq | h
    · rw [heq]; simp
    · cases h
  | cons a as ih =>
    intro x hx
    simp only [List.foldl_cons]
    rcases List.mem_cons.mp hx with heq | hx'
    · rw [heq]
      exact le_trans (le_max_left v a) (ih (Max.max v a) _ (List.mem_cons_self _ _))
    · rcases List.mem_cons.mp hx' with heq | hmem
      · rw [heq]
        exact le_trans (le_max_right v a) (ih (Max.max v a) _ (List.mem_cons_self _ _))
      · exact ih (Max.max v a) x (List.mem_cons.mpr (Or.inr hmem))

/-- Without `distinct`, the collected numeric values are exactly the rows'
column values with `undefined`/`null` dropped and the `Number`-coercion
applied, `NaN` results dropped. -/
theorem collectNumericValues_false_eq (primaryAlias : String) (ref : ColumnReference)
    (rows : List Row) :
    collectNumericValues primaryAlias ref rows false
      = rows.filterMap (fun row =>
          if getRowValueForColumn primaryAlias row ref = JsVal.undefined
             ∨ getRowValueForColumn primaryAlias row ref = JsVal.null then none
          else jsNumber (getRowValueForColumn primaryAlias row ref)) := by
  unfold collectNumericValues
  suffices h : ∀ (rows : List Row) (seen : List String),
      collectNumericValuesGo primaryAlias ref false rows seen
        = rows.filterMap (fun row =>
            if getRowValueForColumn primaryAlias row ref = JsVal.undefined
               ∨ getRowValueForColumn primaryAlias row ref = JsVal.null then none
            else jsNumber (getRowValueForColumn primaryAlias row ref)) by
    exact h rows []
  intro rows'
  induction rows' with
  | nil => intro seen; rfl
  | cons row rest ih =>
    intro seen
    simp only [collectNumericValuesGo, List.filterMap_cons]
    by_cases hbad : getRowValueForColumn primaryAlias row ref = JsVal.undefined
        ∨ getRowValueForColumn primaryAlias row ref = JsVal.null
    · simp [hbad, ih]
    · simp only [hbad, if_false]
      cases hn : jsNumber (getRowValueForColumn primaryAlias row ref) with
      | none => simp [ih]
      | some numeric => simp [ih]

/-- C8: `count()` with no column is the group size (0 on the empty group);
`sum`, `avg`, `min` and `max` reduce the column's values with
`undefined`/`null` dropped and `Number`-coerced, `NaN` dropped; an empty
collection yields `null`; `avg` is the sum divided by the count of collected
values; `min`/`max` are the least/greatest collected value. -/
theorem c8_aggregate_semantics (env : AliasEnv) (c : String) (ref : ColumnReference)
    (rows : List Row) (h : resolveColumnReferenceStr env c = .ok ref) :
    computeAggregateValue env ⟨.count, none, false⟩ rows = .ok (.num (rows.length : ℚ))
    ∧ collectNumericValues env.primaryAlias ref rows false
        = rows.filterMap (fun row =>
            if getRowValueForColumn env.primaryAlias row ref = JsVal.undefined
               ∨ getRowValueForColumn env.primaryAlias row ref = JsVal.null then none
            else jsNumber (getRowValueForColumn env.primaryAlias row ref))
    ∧ computeAggregateValue env ⟨.sum, some c, false⟩ rows
        = .ok (if collectNumericValues env.primaryAlias ref rows false = []
               then JsVal.null
               else JsVal.num (collectNumericValues env.primaryAlias ref rows false).sum)
    ∧ computeAggregateValue env ⟨.avg, some c, false⟩ rows
        = .ok (if collectNumericValues env.primaryAlias ref rows false = []
               then JsVal.null
               else JsVal.num ((collectNumericValues env.primaryAlias ref rows false).sum
                 / ((collectNumericValues env.primaryAlias ref rows false).length : ℚ)))
    ∧ (collectNumericValues env.primaryAlias ref rows false ≠ [] →
        ∃ m, computeAggregateValue env ⟨.min, some c, false⟩ rows = .ok (.num m)
          ∧ m ∈ collectNumericValues env.primaryAlias ref rows false
          ∧ ∀ x ∈ collectNumericValues env.primaryAlias ref rows false, m ≤ x)
    ∧ (collectNumericValues env.primaryAlias ref rows false ≠ [] →
        ∃ m, computeAggregateValue env ⟨.max, some c, false⟩ rows = .ok (.num m)
          ∧ m ∈ collectNumericValues env.primaryAlias ref rows false
          ∧ ∀ x ∈ collectNumericValues env.primaryAlias ref rows false, x ≤ m)
    ∧ (collectNumericValues env.primaryAlias ref rows false = [] →
        computeAggregateValue env ⟨.min, some c, false⟩ rows = .ok JsVal.null
        ∧ computeAggregateValue env ⟨.max, some c, false⟩ rows = .ok JsVal.null
        ∧ computeAggregateValue env ⟨.sum, some c, false⟩ rows = .ok JsVal.null
        ∧ computeAggregateValue env ⟨.avg, some c, false⟩ rows = .ok JsVal.null) := by
  have hres : resolveAggregateColumnRef env ⟨.sum, some c, false⟩ = .ok (some ref) := by
    unfold resolveAggregateColumnRef
    dsimp only
    rw [h]
    rfl
  refine ⟨rfl, collectNumericValues_false_eq env.primaryAlias ref rows, ?_, ?_, ?_, ?_, ?_⟩
  · unfold computeAggregateValue resolveAggregateColumnRef
    dsimp only
    rw [h]
    simp only [Except.map, Bind.bind, Except.bind, pure, Except.pure]
    by_cases he : collectNumericValues env.primaryAlias ref rows false = []
    · simp [he, List.isEmpty_iff]
    · simp [he, List.isEmpty_iff, List.sum_eq_foldl]
  · unfold computeAggregateValue resolveAggregateColumnRef
    dsimp only
    rw [h]
    simp only [Except.map, Bind.bind, Except.bind, pure, Except.pure]
    by_cases he : collectNumericValues env.primaryAlias ref rows false = []
    · simp [he, List.isEmpty_iff]
    · simp [he, List.isEmpty_iff, List.sum_eq_foldl]
  · intro hne
    cases hv : collectNumericValues env.primaryAlias ref rows false with
    | nil => exact absurd hv hne
    | cons v vrest =>
      refine ⟨vrest.foldl Min.min v, ?_, ?_, ?_⟩
      · unfold computeAggregateValue resolveAggregateColumnRef
        dsimp only
        rw [h]
        simp only [Except.map, Bind.bind, Except.bind, pure, Except.pure]
        rw [hv]
      · exact foldl_min_mem v vrest
      · exact foldl_min_le v vrest
  · intro hne
    cases hv : collectNumericValues env.primaryAlias ref rows false with
    | nil => exact absurd hv hne
    | cons v vrest =>
      refine ⟨vrest.foldl Max.max v, ?_, ?_, ?_⟩
      · unfold computeAggregateValue resolveAggregateColumnRef
        dsimp only
        rw [h]
        simp only [Except.map, Bind.bind, Except.bind, pure, Except.pure]
        rw [hv]
      · exact foldl_max_mem v vrest
      · exact foldl_max_le v vrest
  · intro he
    refine ⟨?_, ?_, ?_, ?_⟩ <;>
      · unfold computeAggregateValue resolveAggregateColumnRef
        dsimp only
        rw [h]
        simp only [Except.map, Bind.bind, Except.bind, pure, Except.pure]
        simp [he, List.isEmpty_iff]

/-- C8 witness: on the concrete rows (ages 20 and 30, one `null`, one `NaN`,
one missing), `count()` is 5 and `sum(age)` is 50. -/
theorem c8_aggregate_semantics_witness :
    resolveColumnReferenceStr c8Env "age" = .ok c8Ref
    ∧ computeAggregateValue c8Env ⟨.count, none, false⟩ c8Rows = .ok (.num 5)
    ∧ computeAggregateValue c8Env ⟨.sum, some "age", false⟩ c8Rows = .ok (.num 50) := by
  have h := c8_aggregate_semantics c8Env "age" c8Ref c8Rows (by decide)
  refine ⟨by decide, h.1, ?_⟩
  rw [h.2.2.1]
  have hc : collectNumericValues c8Env.primaryAlias c8Ref c8Rows false = [20, 30] := by
    decide
  rw [hc]
  norm_num [List.sum_cons, List.sum_nil]
  intro hcontra
  exact absurd hcontra (by decide)

theorem escapeRegexChars_append (a b : List Char) :
    escapeRegexChars (a ++ b) = escapeRegexChars a ++ escapeRegexChars b := by
  simp [escapeRegexChars]

theorem expandLikeWildcards_append (a b : List Char) :
    expandLikeWildcards (a ++ b) = expandLikeWildcards a ++ expandLikeWildcards b := by
  simp [expandLikeWildcards]

theorem likeBody_cons (c : Char) (p : List Char) :
    expandLikeWildcards (escapeRegexChars (c :: p))
      = encLike c ++ expandLikeWildcards (escapeRegexChars p) := by
  have h : c :: p = [c] ++ p := rfl
  rw [h, escapeRegexChars_append, expandLikeWildcards_append]
  rfl

theorem encLike_pct : encLike '%' = ['.', '*'] := by decide

theorem encLike_us : encLike '_' = ['.'] := by decide

theorem encLike_escaped (c : Char) (hc : likeEscapeChars.contains c = true) :
    encLike c = ['\\', c] := by
  have hmem : c ∈ likeEscapeChars := by simpa using hc
  fin_cases hmem <;> decide

theorem encLike_plain (c : Char) (hc : likeEscapeChars.contains c = false)
    (h1 : c ≠ '%') (h2 : c ≠ '_') : encLike c = [c] := by
  have hm : c ∉ likeEscapeChars := by simpa using hc
  simp [encLike, escapeRegexChars, expandLikeWildcards, hm, h1, h2]

theorem not_escape_ne_backslash_dot (c : Char)
    (hc : likeEscapeChars.contains c = false) : c ≠ '\\' ∧ c ≠ '.' := by
  constructor <;> intro h <;> rw [h] at hc <;> exact absurd hc (by decide)

theorem regexSpecial_not_contains (c : Char) (hc : likeEscapeChars.contains c = false)
    (h1 : c ≠ '*') (h2 : c ≠ '?') : regexSpecialChars.contains c = false := by
  rw [Bool.eq_false_iff]
  intro h
  have hmem : c ∈ regexSpecialChars := by simpa using h
  fin_cases hmem
  · exact absurd rfl h1
  · exact absurd rfl h2
  all_goals exact absurd hc (by decide)

theorem likeBody_head (p : List Char) (hp : ∀ ch ∈ p, ch ≠ '*' ∧ ch ≠ '?')
    (h : Char) (t : List Char)
    (heq : expandLikeWildcards (escapeRegexChars p) = h :: t) :
    h ≠ '*' ∧ h ≠ '?' := by
  cases p with
  | nil => simp [escapeRegexChars, expandLikeWildcards] at heq
  | cons c p' =>
    rw [likeBody_cons] at heq
    by_cases h1 : c = '%'
    · subst h1
      rw [encLike_pct] at heq
      simp only [List.cons_append, List.nil_append] at heq
      obtain ⟨rfl, -⟩ := List.cons.inj heq
      exact ⟨by decide, by decide⟩
    · by_cases h2 : c = '_'
      · subst h2
        rw [encLike_us] at heq
        simp only [List.cons_append, List.nil_append] at heq
        obtain ⟨rfl, -⟩ := List.cons.inj heq
        exact ⟨by decide, by decide⟩
      · by_cases h3 : likeEscapeChars.contains c = true
        · rw [encLike_escaped c h3] at heq
          simp only [List.cons_append, List.nil_append] at heq
          obtain ⟨rfl, -⟩ := List.cons.inj heq
          exact ⟨by decide, by decide⟩
        · have hc : likeEscapeChars.contains c = false := by simpa using h3
          rw [encLike_plain c hc h1 h2] at heq
          simp only [List.cons_append, List.nil_append] at heq
          obtain ⟨heqc, -⟩ := List.cons.inj heq
          subst heqc
          exact hp c (List.mem_cons_self c p')

theorem parseRegexBody_likeBody (p : List Char) :
    (∀ ch ∈ p, ch ≠ '*' ∧ ch ≠ '?') →
    parseRegexBody (expandLikeWildcards (escapeRegexChars p)) = some (likeTokens p) := by
  induction p with
  | nil => intro _; decide
  | cons c p' ih =>
    intro hp
    have hp' : ∀ ch ∈ p', ch ≠ '*' ∧ ch ≠ '?' :=
      fun ch hch => hp ch (List.mem_cons_of_mem _ hch)
    have hih := ih hp'
    rw [likeBody_cons]
    by_cases h1 : c = '%'
    · subst h1
      rw [encLike_pct]
      simp only [List.cons_append, List.nil_append]
      rw [parseRegexBody.eq_6, hih]
      simp [likeTokens]
    · by_cases h2 : c = '_'
      · subst h2
        rw [encLike_us]
        simp only [List.cons_append, List.nil_append]
        cases hE : expandLikeWildcards (escapeRegexChars p') with
        | nil =>
          rw [hE] at hih
          rw [parseRegexBody.eq_8]
          · rw [hih]
            simp [likeTokens]
          · intro r hr; cases hr
          · intro r hr; cases hr
        | cons hh tt =>
          have hhd := likeBody_head p' hp' hh tt hE
          rw [hE] at hih
          rw [parseRegexBody.eq_8]
          · rw [hih]
            simp [likeTokens]
          · intro r hr; exact hhd.1 (List.cons.inj hr).1
          · intro r hr; exact hhd.2 (List.cons.inj hr).1
      · by_cases h3 : likeEscapeChars.contains c = true
        · rw [encLike_escaped c h3]
          simp only [List.cons_append, List.nil_append]
          cases hE : expandLikeWildcards (escapeRegexChars p') with
          | nil =>
            rw [hE] at hih
            rw [parseRegexBody.eq_5]
            · rw [hih, likeTokens.eq_4 c p' (fun hq => h1 hq) (fun hq => h2 hq)]
              rfl
            · intro r hr; cases hr
            · intro r hr; cases hr
          | cons hh tt =>
            have hhd := likeBody_head p' hp' hh tt hE
            rw [hE] at hih
            rw [parseRegexBody.eq_5]
            · rw [hih, likeTokens.eq_4 c p' (fun hq => h1 hq) (fun hq => h2 hq)]
              rfl
            · intro r hr; exact hhd.1 (List.cons.inj hr).1
            · intro r hr; exact hhd.2 (List.cons.inj hr).1
        · have hc : likeEscapeChars.contains c = false := by simpa using h3
          have hcp := hp c (List.mem_cons_self c p')
          have hs := regexSpecial_not_contains c hc hcp.1 hcp.2
          have hbd := not_escape_ne_backslash_dot c hc
          rw [encLike_plain c hc h1 h2]
          simp only [List.cons_append, List.nil_append]
          cases hE : expandLikeWildcards (escapeRegexChars p') with
          | nil =>
            rw [hE] at hih
            rw [parseRegexBody.eq_11]
            · rw [hs, hih, likeTokens.eq_4 c p' (fun hq => h1 hq) (fun hq => h2 hq)]
              simp
            · intro hcb _; exact hbd.1 hcb
            · intro _ _ hcb _; exact hbd.1 hcb
            · intro _ _ hcb _; exact hbd.1 hcb
            · intro _ _ hcb _; exact hbd.1 hcb
            · intro _ hcd _; exact hbd.2 hcd
            · intro _ hcd _; exact hbd.2 hcd
            · exact hbd.2
            · intro r hr; cases hr
            · intro r hr; cases hr
          | cons hh tt =>
            have hhd := likeBody_head p' hp' hh tt hE
            rw [hE] at hih
            rw [parseRegexBody.eq_11]
            · rw [hs, hih, likeTokens.eq_4 c p' (fun hq => h1 hq) (fun hq => h2 hq)]
              simp
            · intro hcb _; exact hbd.1 hcb
            · intro _ _ hcb _; exact hbd.1 hcb
            · intro _ _ hcb _; exact hbd.1 hcb
            · intro _ _ hcb _; exact hbd.1 hcb
            · intro _ hcd _; exact hbd.2 hcd
            · intro _ hcd _; exact hbd.2 hcd
            · exact hbd.2
            · intro r hr; exact hhd.1 (List.cons.inj hr).1
            · intro r hr; exact hhd.2 (List.cons.inj hr).1

theorem ratomsMatch_likeTokens (p v : List Char) :
    (∀ ch ∈ v, jsDotMatch ch = true) →
    ratomsMatch (likeTokens p) v = likeMatchesCI p v := by
  induction p, v using likeMatchesCI.induct with
  | case1 =>
    intro _
    simp [likeTokens, ratomsMatch, likeMatchesCI]
  | case2 head tail =>
    intro _
    simp [likeTokens, ratomsMatch, likeMatchesCI]
  | case3 p ih =>
    intro _
    have ih' := ih (fun ch hch => absurd hch (List.not_mem_nil ch))
    simp only [likeTokens] at ih' ⊢
    simp [ratomsMatch, likeMatchesCI, ih']
  | case4 p c v ih1 ih2 =>
    intro hv
    have hdot : jsDotMatch c = true := hv c (List.mem_cons_self c v)
    have ih1' := ih1 hv
    have ih2' := ih2 (fun ch hch => hv ch (List.mem_cons_of_mem _ hch))
    simp only [likeTokens] at ih1' ih2' ⊢
    simp [ratomsMatch, likeMatchesCI, tokMatchCI, hdot, ih1', ih2']
  | case5 tail =>
    intro _
    simp [likeTokens, ratomsMatch, likeMatchesCI]
  | case6 p head v ih =>
    intro hv
    have hdot : jsDotMatch head = true := hv head (List.mem_cons_self head v)
    have ih' := ih (fun ch hch => hv ch (List.mem_cons_of_mem _ hch))
    simp only [likeTokens] at ih' ⊢
    simp [ratomsMatch, likeMatchesCI, tokMatchCI, hdot, ih']
  | case7 head tail hn1 hn2 =>
    intro _
    rw [likeTokens.eq_4 head tail hn1 hn2]
    simp [ratomsMatch, likeMatchesCI, hn1, hn2]
  | case8 c p d v hn1 hn2 ih =>
    intro hv
    have ih' := ih (fun ch hch => hv ch (List.mem_cons_of_mem _ hch))
    rw [likeTokens.eq_4 c p hn1 hn2]
    simp [ratomsMatch, likeMatchesCI, tokMatchCI, hn1, hn2, ih']

theorem stripAnchors_anchored (body : List Char) :
    stripAnchors ('^' :: body ++ ['$']) = some body := by
  simp [stripAnchors, List.getLast?_concat, List.dropLast_concat]

/-- C9 (amended): for LIKE patterns containing no `*` and no `?` (so the
unescaped ECMAScript quantifier metacharacters cannot fire) and values
without line terminators, the fallback `computeLikeMatch` implements exact
case-insensitive SQL LIKE semantics (`%` any sequence, `_` exactly one
character, other characters literally up to case), and it agrees with the
SPARQL translation: `convertLikePattern` produces exactly the anchored body
that `computeLikeMatch` tests, with the `i` flag. -/
theorem c9_like_amended (value pattern : String)
    (hp : ∀ ch ∈ pattern.toList, ch ≠ '*' ∧ ch ≠ '?')
    (hv : ∀ ch ∈ value.toList, jsDotMatch ch = true) :
    computeLikeMatch value pattern = some (likeMatchesCI pattern.toList value.toList)
    ∧ computeLikeMatch value pattern
        = jsAnchoredRegexTestCI (convertLikePattern pattern).1 value
    ∧ (convertLikePattern pattern).2 = "i" := by
  refine ⟨?_, rfl, rfl⟩
  have h1 : computeLikeMatch value pattern
      = (stripAnchors
          ('^' :: expandLikeWildcards (escapeRegexChars pattern.toList) ++ ['$'])).bind
          (fun body => (parseRegexBody body).bind
            (fun atoms => some (ratomsMatch atoms value.toList))) := rfl
  rw [h1, stripAnchors_anchored]
  rw [Option.some_bind, parseRegexBody_likeBody pattern.toList hp, Option.some_bind,
    ratomsMatch_likeTokens pattern.toList value.toList hv]

theorem c9_like_amended_witness :
    computeLikeMatch "Abc xyz" "abc%" = some true := by
  have h := (c9_like_amended "Abc xyz" "abc%" (by decide) (by decide)).1
  rw [h]
  simp [likeMatchesCI]

/-- C9: counterexample to the claim as stated.  The claim says regex
metacharacters of the pattern are escaped, but both source sites escape only
the class `[.+^$\x7b\x7d()|[\]\\]`, which omits `*` and `?`.  For pattern
`a*` and value `aaa`, the code compiles `^a*$` (a quantifier) and matches,
while escaping all metacharacters (`^a\*$`) would reject. -/
theorem c9_like_counterexample :
    computeLikeMatch "aaa" "a*" = some true
    ∧ specClaimedLikeMatch "aaa" "a*" = some false := by
  constructor
  · simp [computeLikeMatch, jsAnchoredRegexTestCI, stripAnchors, escapeRegexChars,
      expandLikeWildcards, likeEscapeChars, parseRegexBody, regexSpecialChars,
      ratomsMatch, tokMatchCI, jsDotMatch]
  · simp [specClaimedLikeMatch, specEscapeAllMeta, jsAnchoredRegexTestCI, stripAnchors,
      expandLikeWildcards, parseRegexBody, regexSpecialChars, ratomsMatch, tokMatchCI,
      jsDotMatch]

/-- C10 witness: a concrete record id round-trips through the generated
subject URI. -/
theorem c10_subject_id_roundtrip_witness :
    extractIdFromSubject
      (generateSubjectUri "http://localhost:3000" "/alice/" "/drizzle-tests/tasks/"
        (some "p1") 0) = some "p1" :=
  c10_subject_id_roundtrip "http://localhost:3000" "/alice/" "/drizzle-tests/tasks/"
    "p1" 0 (by decide) (by decide)

end DrizzleSolid
